import Mathlib

/-!
# ADAccessChecker: a verification development for `ADac.go`

The program answers one question over HTTP: is the account carrying a numeric
identifier a member of a named directory group?  The work is done by
`checkAccessForUser`, which opens an LDAP session, runs two searches and shapes
a verdict, and by the two JSON helpers `transformObjectToJSON` and
`transformJSONToObject`.

The embedding is shallow.  Go strings are byte sequences, so a string is a list
of bytes.  The directory is a test double: a record of answers to `Dial`,
`StartTLS`, `Bind` and to the successive `Search` calls.  A run of
`checkAccessForUser` yields an outcome (the function returned a value, or the
process exited) together with the ordered list of the effects it performed.
-/

namespace ADac

/-! ## Strings -/

/-- A Go `string`: an immutable sequence of bytes, not necessarily valid UTF-8. -/
abbrev GoString := List UInt8

/-- The UTF-8 encoding of one code point, as `utf8.AppendRune` writes it. -/
def encodeRune (c : Char) : List UInt8 :=
  let v := c.toNat
  if v < 0x80 then [v.toUInt8]
  else if v < 0x800 then [(0xC0 + v / 64).toUInt8, (0x80 + v % 64).toUInt8]
  else if v < 0x10000 then
    [(0xE0 + v / 4096).toUInt8, (0x80 + v / 64 % 64).toUInt8, (0x80 + v % 64).toUInt8]
  else
    [(0xF0 + v / 262144).toUInt8, (0x80 + v / 4096 % 64).toUInt8,
     (0x80 + v / 64 % 64).toUInt8, (0x80 + v % 64).toUInt8]

/-- The bytes of a string literal of the source text (Go source is UTF-8). -/
def go (s : String) : GoString := s.toList.flatMap encodeRune

/-- The verb `%d` of `fmt` applied to an integer: decimal digits, with a
leading minus sign for a negative number. -/
def fmtD : Int → GoString
  | Int.ofNat n => go (Nat.repr n)
  | Int.negSucc n => go "-" ++ go (Nat.repr (n + 1))

/-! ## The structures of the program -/

/-- The `ldapConfig` structure, filled once from `settings.yaml`. -/
structure ldapConfig where
  Server : GoString
  Port : Int
  SearchUser : GoString
  SearchPass : GoString
  BaseDN : GoString
  SearchAttr : GoString
  deriving DecidableEq

/-- The `authRequest` structure decoded from the request body. -/
structure authRequest where
  ID : Int
  GroupName : GoString
  deriving DecidableEq

/-- The `authResponse` structure.  `Data` is a Go map: `none` is the nil map,
`some kvs` a non-nil map holding the listed bindings. -/
structure authResponse where
  ResponseOK : Bool
  Message : GoString
  Data : Option (List (GoString × GoString))
  deriving DecidableEq

/-- The zero value that `var r authResponse` declares. -/
def authResponse.zero : authResponse := ⟨false, [], none⟩

/-! ## The LDAP client library, as far as the program uses it -/

/-- An attribute of a directory entry: a name and its values. -/
structure EntryAttribute where
  Name : GoString
  Values : List GoString
  deriving DecidableEq

/-- A directory entry returned by a search. -/
structure Entry where
  DN : GoString
  Attributes : List EntryAttribute
  deriving DecidableEq

/-- The values of the named attribute: those of the first attribute carrying
that name, or the empty list. -/
def Entry.GetAttributeValues (e : Entry) (attr : GoString) : List GoString :=
  match e.Attributes.find? (fun a => a.Name == attr) with
  | some a => a.Values
  | none => []

/-- The first value of the named attribute, or the empty string. -/
def Entry.GetAttributeValue (e : Entry) (attr : GoString) : GoString :=
  match e.GetAttributeValues attr with
  | [] => []
  | v :: _ => v

/-- The result of a search: the entries found. -/
structure SearchResult where
  Entries : List Entry
  deriving DecidableEq

/-- The search scopes of the library. -/
inductive Scope where
  | ScopeBaseObject
  | ScopeSingleLevel
  | ScopeWholeSubtree
  deriving DecidableEq

/-- The alias dereferencing policies of the library. -/
inductive DerefAliases where
  | NeverDerefAliases
  | DerefInSearching
  | DerefFindingBaseObj
  | DerefAlways
  deriving DecidableEq

/-- A search request, field for field as `ldap.NewSearchRequest` fills it.  The
program passes `nil` for the controls, so the control list holds names only. -/
structure SearchRequest where
  BaseDN : GoString
  Scope : Scope
  DerefAliases : DerefAliases
  SizeLimit : Int
  TimeLimit : Int
  TypesOnly : Bool
  Filter : GoString
  Attributes : List GoString
  Controls : List GoString
  deriving DecidableEq

/-- The constructor `ldap.NewSearchRequest`, which stores its arguments. -/
def NewSearchRequest (BaseDN : GoString) (scope : Scope) (deref : DerefAliases)
    (SizeLimit TimeLimit : Int) (TypesOnly : Bool) (Filter : GoString)
    (Attributes : List GoString) (Controls : List GoString) : SearchRequest :=
  ⟨BaseDN, scope, deref, SizeLimit, TimeLimit, TypesOnly, Filter, Attributes, Controls⟩

/-- A directory service as the program meets it.  An operation that can fail
answers `some e` with the text of its error or `none` for success; a search
answers with an error text or a result.  The answer to a search may depend on
how many searches the session has already made. -/
structure Directory where
  Dial : GoString → GoString → Option GoString
  StartTLS : Bool → Option GoString
  Bind : GoString → GoString → Option GoString
  Search : Nat → SearchRequest → Except GoString SearchResult

/-! ## Effects and outcomes -/

/-- The effects `checkAccessForUser` performs, in the order it performs them. -/
inductive Event where
  | Dial (network address : GoString)
  | StartTLS (insecureSkipVerify : Bool)
  | Bind (username password : GoString)
  | Search (request : SearchRequest)
  | Close
  | Printf (text : GoString)
  | LogFatal (text : GoString)
  deriving DecidableEq

/-- How a call ends: it returns a value to its caller, or the process exits
with a status code. -/
inductive Outcome where
  | returned (r : authResponse)
  | exited (status : Nat)
  deriving DecidableEq

/-- A run: its outcome and the effects performed up to it. -/
structure Run where
  outcome : Outcome
  events : List Event
  deriving DecidableEq

/-- The standard library's `log.Fatal`: it prints its argument and calls
`os.Exit(1)`.  The process ends there: the statements that follow the call in
the source, given here as the continuation, are not executed, and deferred
calls are not run. -/
def logFatal (events : List Event) (err : GoString) (_rest : List Event → Run) : Run :=
  ⟨Outcome.exited 1, events ++ [Event.LogFatal err]⟩

/-- The statement `defer l.Close()` around the rest of the function body: when
the body returns, `Close` runs; when the process exited, nothing runs. -/
def deferClose (body : Run) : Run :=
  match body.outcome with
  | Outcome.returned r => ⟨Outcome.returned r, body.events ++ [Event.Close]⟩
  | Outcome.exited status => ⟨Outcome.exited status, body.events⟩

/-! ## The work -/

/-- The state of the first `range` loop: `sAMAccountName`, `foundUser` and the
effects so far. -/
structure LoopState where
  sAMAccountName : GoString
  found : Bool
  events : List Event
  deriving DecidableEq

/-- The loop `for _, entry := range usr.Entries` of the first search: each
entry overwrites `sAMAccountName`, is printed, and sets `foundUser`. -/
def userLoop (entries : List Entry) (st : LoopState) : LoopState :=
  entries.foldl (fun st entry =>
    { sAMAccountName := entry.GetAttributeValue (go "sAMAccountName")
      found := true
      events := st.events ++ [Event.Printf (go "Found " ++ entry.DN ++ go " -> " ++
        entry.GetAttributeValue (go "sAMAccountName") ++ go "\n")] }) st

/-- The loop `for _, entry := range gsr.Entries` of the second search: each
entry overwrites `sAMAccountName`, is printed, and sets `userInGroup`. -/
def groupLoop (entries : List Entry) (st : LoopState) : LoopState :=
  entries.foldl (fun st entry =>
    { sAMAccountName := entry.GetAttributeValue (go "sAMAccountName")
      found := true
      events := st.events ++ [Event.Printf (go "Found in the group! " ++ entry.DN ++ go " -> " ++
        entry.GetAttributeValue (go "sAMAccountName") ++ go "\n")] }) st

/-- The request of the first search (source lines 129 to 135). -/
def userSearchRequest (config : ldapConfig) (ar : authRequest) : SearchRequest :=
  NewSearchRequest config.BaseDN Scope.ScopeWholeSubtree DerefAliases.NeverDerefAliases 0 0 false
    (go "(&(objectClass=user)(" ++ config.SearchAttr ++ go "=" ++ fmtD ar.ID ++ go "))")
    [go "sAMAccountName"] []

/-- The request of the second search (source lines 165 to 171). -/
def groupSearchRequest (config : ldapConfig) (sAMAccountName : GoString) (ar : authRequest) :
    SearchRequest :=
  NewSearchRequest config.BaseDN Scope.ScopeWholeSubtree DerefAliases.NeverDerefAliases 0 0 false
    (go "(&(objectClass=user)(sAMAccountName=" ++ sAMAccountName ++ go ")(memberOf=CN=" ++
      ar.GroupName ++ go "," ++ config.BaseDN ++ go "))")
    [go "sAMAccountName"] []

/-- The part of `checkAccessForUser` that follows `defer l.Close()`: StartTLS,
bind, the two searches and the verdict.  `t` holds the effects so far. -/
def checkAccessBody (config : ldapConfig) (l : Directory) (ar : authRequest) (r : authResponse)
    (t : List Event) : Run :=
  let t := t ++ [Event.StartTLS true]
  match l.StartTLS true with
  | some err =>
    logFatal t err fun t => ⟨Outcome.returned { r with ResponseOK := false, Message := err }, t⟩
  | none =>
  let t := t ++ [Event.Bind config.SearchUser config.SearchPass]
  match l.Bind config.SearchUser config.SearchPass with
  | some err =>
    logFatal t err fun t => ⟨Outcome.returned { r with ResponseOK := false, Message := err }, t⟩
  | none =>
  let t := t ++ [Event.Search (userSearchRequest config ar)]
  match l.Search 0 (userSearchRequest config ar) with
  | Except.error err =>
    logFatal t err fun t => ⟨Outcome.returned { r with ResponseOK := false, Message := err }, t⟩
  | Except.ok usr =>
  let st := userLoop usr.Entries ⟨[], false, t⟩
  if st.found == false then
    ⟨Outcome.returned { r with
        ResponseOK := false
        Message := fmtD ar.ID ++ go " was not found in the directory" }, st.events⟩
  else
  let t := st.events ++ [Event.Search (groupSearchRequest config st.sAMAccountName ar)]
  match l.Search 1 (groupSearchRequest config st.sAMAccountName ar) with
  | Except.error err =>
    logFatal t err fun t => ⟨Outcome.returned { r with ResponseOK := false, Message := err }, t⟩
  | Except.ok gsr =>
  let st := groupLoop gsr.Entries ⟨st.sAMAccountName, false, t⟩
  if st.found == false then
    ⟨Outcome.returned { r with
        ResponseOK := false
        Message := go "User " ++ st.sAMAccountName ++ go " with ID " ++ fmtD ar.ID ++
          go " not in the " ++ ar.GroupName ++ go " group" }, st.events⟩
  else
    ⟨Outcome.returned { r with ResponseOK := true, Message := go "OK" }, st.events⟩

/-- The address dialled: `fmt.Sprintf("%s:%d", config.Server, config.Port)`. -/
def dialAddress (config : ldapConfig) : GoString :=
  config.Server ++ go ":" ++ fmtD config.Port

/-- The function `checkAccessForUser` of the source, run against a directory. -/
def checkAccessForUser (config : ldapConfig) (l : Directory) (ar : authRequest) : Run :=
  let r := authResponse.zero
  let address := dialAddress config
  let t := [Event.Dial (go "tcp") address]
  match l.Dial (go "tcp") address with
  | some err =>
    logFatal t err fun t => ⟨Outcome.returned { r with ResponseOK := false, Message := err }, t⟩
  | none => deferClose (checkAccessBody config l ar r t)

/-- The search request an effect carries, when the effect is a search. -/
def Event.search? : Event → Option SearchRequest
  | Event.Search q => some q
  | _ => none

/-- The searches among the effects of a run, in order. -/
def searches (es : List Event) : List SearchRequest := es.filterMap Event.search?

/-- The account name the first loop leaves in `sAMAccountName`: the name
`checkAccessForUser` carries into its second step. -/
def resolvedName (entries : List Entry) : GoString :=
  (userLoop entries ⟨[], false, []⟩).sAMAccountName

/-- The number of `Close` calls among the effects of a run. -/
def closeCount (es : List Event) : Nat := es.count Event.Close

/-- The session opens: connect, StartTLS and bind all succeed. -/
def SessionOpens (config : ldapConfig) (l : Directory) : Prop :=
  l.Dial (go "tcp") (dialAddress config) = none ∧
  l.StartTLS true = none ∧
  l.Bind config.SearchUser config.SearchPass = none

/-! ## Concrete directories and requests -/

/-- A configuration in the shape of `settings.yaml`. -/
def exampleConfig : ldapConfig :=
  ⟨go "ad.example.org", 389, go "CN=svc,DC=example,DC=org", go "secret",
    go "DC=example,DC=org", go "uidNumber"⟩

/-- A directory entry with a distinguished name and one `sAMAccountName`. -/
def entryOf (dn name : String) : Entry := ⟨go dn, [⟨go "sAMAccountName", [go name]⟩]⟩

/-- A test double whose session opens and whose first and second search give
the two scripted answers. -/
def scriptedDirectory (first second : Except GoString SearchResult) : Directory :=
  ⟨fun _ _ => none, fun _ => none, fun _ _ => none,
    fun i _ => if i = 0 then first else second⟩

/-- A directory service that cannot be reached: `Dial` fails. -/
def unreachableDirectory : Directory :=
  ⟨fun _ _ => some (go "dial tcp: connection refused"), fun _ => none, fun _ _ => none,
    fun _ _ => Except.ok ⟨[]⟩⟩

/-- A directory service reached in clear whose TLS upgrade fails. -/
def noTLSDirectory : Directory :=
  ⟨fun _ _ => none, fun _ => some (go "TLS handshake failed"), fun _ _ => none,
    fun _ _ => Except.ok ⟨[]⟩⟩

/-! ## Reading a filter text

The program hands the filter to the directory as text.  The filter compiler of
the LDAP client library (the grammar of RFC 4515) splits the text into tests.
The reader below covers the fragment the program produces: a conjunction
`(&...)` of items `(attr=value)`.  A text outside the fragment, or a malformed
one, reads as `none`. -/

/-- One simple test of a search filter, as the filter compiler classifies an
item `(attr=value)`. -/
inductive FilterTest where
  | equality (attr value : GoString)
  | present (attr : GoString)
  | substrings (attr pattern : GoString)
  deriving DecidableEq

/-- The value of a hexadecimal digit. -/
def hexVal (b : UInt8) : Option Nat :=
  let n := b.toNat
  if 48 ≤ n ∧ n ≤ 57 then some (n - 48)
  else if 97 ≤ n ∧ n ≤ 102 then some (n - 87)
  else if 65 ≤ n ∧ n ≤ 70 then some (n - 55)
  else none

/-- The data a value text stands for: a backslash followed by two hexadecimal
digits stands for that byte, any other backslash is an error, every other byte
stands for itself. -/
def unescapeValue : List UInt8 → Option (List UInt8)
  | [] => some []
  | b :: rest =>
    if b = 92 then
      match rest with
      | h :: l :: rest2 =>
        match hexVal h, hexVal l with
        | some x, some y => (unescapeValue rest2).map fun v => (16 * x + y).toUInt8 :: v
        | _, _ => none
      | _ => none
    else (unescapeValue rest).map fun v => b :: v

/-- The test an item `(attr=value)` stands for: presence when the value is
`*` (byte 42), a substring match when it contains `*`, else equality with the
unescaped value. -/
def readTest (attr value : GoString) : Option FilterTest :=
  if value = [42] then some (FilterTest.present attr)
  else if 42 ∈ value then some (FilterTest.substrings attr value)
  else (unescapeValue value).map (FilterTest.equality attr)

/-- The states of the reader of a conjunction. -/
inductive ReadState where
  | between (done : List FilterTest)
  | attr (done : List FilterTest) (name : GoString)
  | value (done : List FilterTest) (name text : GoString)
  | closed (done : List FilterTest)
  deriving DecidableEq

/-- One step of the reader: the state after reading one more byte, or `none`
when the text leaves the fragment or is malformed.  The bytes are `(` 40,
`)` 41, `=` 61; `:` 58, `<` 60, `>` 62 and `~` 126 start the other kinds of
match; `&` 38, `|` 124, `!` 33 and `(` at the head of an item start a nested
filter. -/
def readStep : ReadState → UInt8 → Option ReadState
  | ReadState.between done, b =>
    if b = 40 then some (ReadState.attr done [])
    else if b = 41 then some (ReadState.closed done)
    else none
  | ReadState.attr done name, b =>
    if b = 41 then none
    else if b = 61 then some (ReadState.value done name [])
    else if b = 58 ∨ b = 60 ∨ b = 62 ∨ b = 126 then none
    else if name = [] ∧ (b = 38 ∨ b = 124 ∨ b = 33 ∨ b = 40) then none
    else some (ReadState.attr done (name ++ [b]))
  | ReadState.value done name text, b =>
    if b = 41 then (readTest name text).map fun t => ReadState.between (done ++ [t])
    else some (ReadState.value done name (text ++ [b]))
  | ReadState.closed _, _ => none

/-- The reader run over a run of bytes. -/
def readFrom : ReadState → List UInt8 → Option ReadState
  | s, [] => some s
  | s, b :: bs =>
    match readStep s b with
    | some s2 => readFrom s2 bs
    | none => none

/-- The tests of a filter text of the form `(&(a=v)...(a=v))`. -/
def readConjunction (filter : GoString) : Option (List FilterTest) :=
  match filter with
  | o :: a :: rest =>
    if o = 40 ∧ a = 38 then
      match readFrom (ReadState.between []) rest with
      | some (ReadState.closed done) => some done
      | _ => none
    else none
  | _ => none

/-- The three tests the membership filter is meant to be: the account class,
the resolved account name, and membership of the group `CN=g,b`, each an
equality on literal data. -/
def intendedTests (n g b : GoString) : List FilterTest :=
  [FilterTest.equality (go "objectClass") (go "user"),
   FilterTest.equality (go "sAMAccountName") n,
   FilterTest.equality (go "memberOf") (go "CN=" ++ g ++ go "," ++ b)]

/-- A string free of the bytes `)`, `*` and backslash. -/
def PlainValue (v : GoString) : Prop :=
  (41 : UInt8) ∉ v ∧ (42 : UInt8) ∉ v ∧ (92 : UInt8) ∉ v

instance (v : GoString) : Decidable (PlainValue v) := by
  unfold PlainValue
  infer_instance

/-! ## UTF-8 -/

/-- Whether a byte is a UTF-8 continuation byte. -/
def isCont (b : UInt8) : Bool := decide (0x80 ≤ b.toNat ∧ b.toNat ≤ 0xBF)

/-- The function `utf8.DecodeRuneInString` on a non-empty string: the code
point at the head of the bytes and the number of bytes of its encoding, or
`none` when the head is not a valid encoding (Go answers `RuneError` with
width 1). -/
def decodeRune : List UInt8 → Option (Nat × Nat)
  | [] => none
  | b0 :: rest =>
    let x := b0.toNat
    if x < 0x80 then some (x, 1)
    else if 0xC2 ≤ x ∧ x ≤ 0xDF then
      match rest with
      | b1 :: _ =>
        if isCont b1 then some ((x - 0xC0) * 64 + (b1.toNat - 0x80), 2) else none
      | _ => none
    else if 0xE0 ≤ x ∧ x ≤ 0xEF then
      match rest with
      | b1 :: b2 :: _ =>
        if (if x = 0xE0 then 0xA0 else 0x80) ≤ b1.toNat ∧
            b1.toNat ≤ (if x = 0xED then 0x9F else 0xBF) ∧ isCont b2 then
          some ((x - 0xE0) * 4096 + (b1.toNat - 0x80) * 64 + (b2.toNat - 0x80), 3)
        else none
      | _ => none
    else if 0xF0 ≤ x ∧ x ≤ 0xF4 then
      match rest with
      | b1 :: b2 :: b3 :: _ =>
        if (if x = 0xF0 then 0x90 else 0x80) ≤ b1.toNat ∧
            b1.toNat ≤ (if x = 0xF4 then 0x8F else 0xBF) ∧ isCont b2 ∧ isCont b3 then
          some ((x - 0xF0) * 262144 + (b1.toNat - 0x80) * 4096 + (b2.toNat - 0x80) * 64 +
            (b3.toNat - 0x80), 4)
        else none
      | _ => none
    else none

/-- The function `utf8.AppendRune` on a code point held in an integer: a
surrogate or a value above U+10FFFF is written as U+FFFD. -/
def appendRune (v : Nat) : List UInt8 :=
  if (0xD800 ≤ v ∧ v ≤ 0xDFFF) ∨ 0x10FFFF < v then [0xEF, 0xBF, 0xBD]
  else if v < 0x80 then [v.toUInt8]
  else if v < 0x800 then [(0xC0 + v / 64).toUInt8, (0x80 + v % 64).toUInt8]
  else if v < 0x10000 then
    [(0xE0 + v / 4096).toUInt8, (0x80 + v / 64 % 64).toUInt8, (0x80 + v % 64).toUInt8]
  else
    [(0xF0 + v / 262144).toUInt8, (0x80 + v / 4096 % 64).toUInt8,
     (0x80 + v / 64 % 64).toUInt8, (0x80 + v % 64).toUInt8]

/-- A string is valid UTF-8 when it is the encoding of a sequence of code
points. -/
def ValidUTF8 (s : GoString) : Prop := ∃ cs : List Char, s = cs.flatMap encodeRune

/-! ## The JSON encoder of the standard library, on `authResponse`

`transformObjectToJSON` calls `json.Marshal`.  On a struct with the tags of
`authResponse` the encoder writes the fields in declaration order under their
tag names, a boolean as `true` or `false`, a string as a quoted JSON string, a
nil map as `null` and a map as an object whose keys are sorted.  The string
encoder escapes the quote, the backslash, the control characters, the
characters `<`, `>` and `&`, and U+2028 and U+2029; it writes U+FFFD for every
byte that is not part of a valid UTF-8 encoding.  Control characters other
than newline, carriage return and tab are written as `\u00XX`, as the releases
of the library contemporary with the program do; the decoder reads every form
of escape. -/

/-- The digit of `0123456789abcdef` at an index below 16. -/
def hexDigit (n : Nat) : UInt8 :=
  if n < 10 then (48 + n).toUInt8 else (87 + n).toUInt8

/-- The table `htmlSafeSet`: the ASCII bytes written to a JSON string as they
are. -/
def htmlSafe (b : UInt8) : Bool :=
  decide (0x20 ≤ b.toNat ∧ b.toNat < 0x80 ∧ b.toNat ≠ 0x22 ∧ b.toNat ≠ 0x26 ∧
    b.toNat ≠ 0x3C ∧ b.toNat ≠ 0x3E ∧ b.toNat ≠ 0x5C)

/-- The escape written for an ASCII byte outside `htmlSafeSet`. -/
def escapeByte (b : UInt8) : List UInt8 :=
  if b.toNat = 0x5C ∨ b.toNat = 0x22 then [0x5C, b]
  else if b.toNat = 0x0A then go "\\n"
  else if b.toNat = 0x0D then go "\\r"
  else if b.toNat = 0x09 then go "\\t"
  else go "\\u00" ++ [hexDigit (b.toNat / 16), hexDigit (b.toNat % 16)]

/-- The loop of the string encoder from index `i`: `skip` counts the bytes
still to pass over because the rune they belong to has been written. -/
def appendStringFrom : Nat → List UInt8 → List UInt8
  | _, [] => []
  | skip + 1, _ :: rest => appendStringFrom skip rest
  | 0, b :: rest =>
    if b.toNat < 0x80 then
      (if htmlSafe b then [b] else escapeByte b) ++ appendStringFrom 0 rest
    else
      match decodeRune (b :: rest) with
      | none => go "\\ufffd" ++ appendStringFrom 0 rest
      | some (c, size) =>
        if c = 0x2028 ∨ c = 0x2029 then
          go "\\u202" ++ [hexDigit (c % 16)] ++ appendStringFrom (size - 1) rest
        else (b :: rest).take size ++ appendStringFrom (size - 1) rest

/-- A Go string as a quoted JSON string. -/
def quoteString (s : GoString) : List UInt8 :=
  go "\"" ++ appendStringFrom 0 s ++ go "\""

/-- The order of Go strings: bytewise lexicographic. -/
def bytesLt : List UInt8 → List UInt8 → Bool
  | [], [] => false
  | [], _ :: _ => true
  | _ :: _, [] => false
  | a :: as, b :: bs =>
    if a.toNat < b.toNat then true
    else if b.toNat < a.toNat then false
    else bytesLt as bs

/-- The assignment `m[k] = v` on a map held as a list of bindings in increasing
key order. -/
def mapInsert (m : List (GoString × GoString)) (k v : GoString) : List (GoString × GoString) :=
  match m with
  | [] => [(k, v)]
  | (k2, v2) :: rest =>
    if k = k2 then (k, v) :: rest
    else if bytesLt k k2 then (k, v) :: (k2, v2) :: rest
    else (k2, v2) :: mapInsert rest k v

/-- The bindings of a map in increasing key order, as the encoder sorts them. -/
def sortedBindings (m : List (GoString × GoString)) : List (GoString × GoString) :=
  m.foldl (fun acc kv => mapInsert acc kv.1 kv.2) []

/-- The members of an object of strings, separated by commas. -/
def encodeMembers : List (GoString × GoString) → List UInt8
  | [] => []
  | [kv] => quoteString kv.1 ++ go ":" ++ quoteString kv.2
  | kv :: rest => quoteString kv.1 ++ go ":" ++ quoteString kv.2 ++ go "," ++ encodeMembers rest

/-- The encoding of a `map[string]string`. -/
def encodeData : Option (List (GoString × GoString)) → List UInt8
  | none => go "null"
  | some m => go "\x7b" ++ encodeMembers (sortedBindings m) ++ go "\x7d"

/-- The function `transformObjectToJSON` of the source on an `authResponse`:
the bytes `json.Marshal` returns.  Marshalling this type cannot fail, so the
error branch of the source is not reached. -/
def transformObjectToJSON (v : authResponse) : List UInt8 :=
  go "\x7b\"txok\":" ++ (if v.ResponseOK then go "true" else go "false") ++
    go ",\"message\":" ++ quoteString v.Message ++
    go ",\"data\":" ++ encodeData v.Data ++ go "\x7d"

/-! ## The JSON decoder of the standard library, on `authResponse`

`transformJSONToObject` decodes into the value its pointer argument points to
and panics on an error.  The model covers compact texts (no white space)
whose members are among the three fields, named by their exact keys; `none`
stands for a decoding error (the source then panics) or for a text outside
this fragment. -/

/-- The four hexadecimal digits after `\u`, as a number. -/
def getu4 : List UInt8 → Option Nat
  | a :: b :: c :: d :: _ =>
    match hexVal a, hexVal b, hexVal c, hexVal d with
    | some x, some y, some z, some w => some (((x * 16 + y) * 16 + z) * 16 + w)
    | _, _, _, _ => none
  | _ => none

/-- The second half of a surrogate pair: the text after the first `\uXXXX`
holds another `\uXXXX`. -/
def getu4Next : List UInt8 → Option Nat
  | _ :: _ :: _ :: _ :: bs :: u :: rest =>
    if bs.toNat = 0x5C ∧ u.toNat = 0x75 then getu4 rest else none
  | _ => none

/-- A result of the string decoder with more bytes put in front of it. -/
def prepend (x : List UInt8) (r : Option (GoString × List UInt8)) :
    Option (GoString × List UInt8) :=
  r.map fun p => (x ++ p.1, p.2)

/-- The string decoder on the text that follows an opening quote: the decoded
string and the text after the closing quote.  `skip` counts the bytes still to
pass over because the escape or rune they belong to has been decoded. -/
def unquoteFrom : Nat → List UInt8 → Option (GoString × List UInt8)
  | _, [] => none
  | skip + 1, _ :: rest => unquoteFrom skip rest
  | 0, c :: rest =>
    if c.toNat = 0x22 then some ([], rest)
    else if c.toNat = 0x5C then
      match rest with
      | [] => none
      | e :: rest2 =>
        if e.toNat = 0x22 ∨ e.toNat = 0x5C ∨ e.toNat = 0x2F then
          prepend [e] (unquoteFrom 1 rest)
        else if e.toNat = 0x62 then prepend [0x08] (unquoteFrom 1 rest)
        else if e.toNat = 0x66 then prepend [0x0C] (unquoteFrom 1 rest)
        else if e.toNat = 0x6E then prepend [0x0A] (unquoteFrom 1 rest)
        else if e.toNat = 0x72 then prepend [0x0D] (unquoteFrom 1 rest)
        else if e.toNat = 0x74 then prepend [0x09] (unquoteFrom 1 rest)
        else if e.toNat = 0x75 then
          match getu4 rest2 with
          | none => none
          | some rr =>
            if 0xD800 ≤ rr ∧ rr ≤ 0xDFFF then
              match getu4Next rest2 with
              | some rr1 =>
                if rr ≤ 0xDBFF ∧ 0xDC00 ≤ rr1 ∧ rr1 ≤ 0xDFFF then
                  prepend (appendRune ((rr - 0xD800) * 1024 + (rr1 - 0xDC00) + 0x10000))
                    (unquoteFrom 11 rest)
                else prepend (appendRune 0xFFFD) (unquoteFrom 5 rest)
              | none => prepend (appendRune 0xFFFD) (unquoteFrom 5 rest)
            else prepend (appendRune rr) (unquoteFrom 5 rest)
        else none
    else if c.toNat < 0x20 then none
    else if c.toNat < 0x80 then prepend [c] (unquoteFrom 0 rest)
    else
      match decodeRune (c :: rest) with
      | some (r, size) => prepend (appendRune r) (unquoteFrom (size - 1) rest)
      | none => prepend (appendRune 0xFFFD) (unquoteFrom 0 rest)

/-- The text after a literal, when the text starts with it. -/
def stripLit : List UInt8 → List UInt8 → Option (List UInt8)
  | [], text => some text
  | _ :: _, [] => none
  | l :: ls, t :: ts => if l = t then stripLit ls ts else none

/-- The members of an object decoded into a `map[string]string`, from the text
after `{` or after a comma, up to the closing brace. -/
def dataMembers : Nat → List UInt8 → List (GoString × GoString) →
    Option (List (GoString × GoString) × List UInt8)
  | 0, _, _ => none
  | fuel + 1, text, m =>
    match stripLit (go "\"") text with
    | none => none
    | some t1 =>
    match unquoteFrom 0 t1 with
    | none => none
    | some (k, t2) =>
    match stripLit (go ":\"") t2 with
    | none => none
    | some t3 =>
    match unquoteFrom 0 t3 with
    | none => none
    | some (v, t4) =>
    match t4 with
    | [] => none
    | s :: t5 =>
      if s.toNat = 0x2C then dataMembers fuel t5 (mapInsert m k v)
      else if s.toNat = 0x7D then some (mapInsert m k v, t5)
      else none

/-- A JSON value decoded into the `Data` field: `null` sets the map to nil, an
object allocates the map when it is nil and assigns its members. -/
def decodeData (text : List UInt8) (current : Option (List (GoString × GoString))) :
    Option (Option (List (GoString × GoString)) × List UInt8) :=
  match stripLit (go "null") text with
  | some rest => some (none, rest)
  | none =>
  match stripLit (go "\x7b\x7d") text with
  | some rest => some (some (current.getD []), rest)
  | none =>
  match stripLit (go "\x7b") text with
  | some rest => (dataMembers rest.length rest (current.getD [])).map fun p => (some p.1, p.2)
  | none => none

/-- One member value decoded into the field its key names. -/
def decodeField (key : GoString) (text : List UInt8) (v : authResponse) :
    Option (authResponse × List UInt8) :=
  if key = go "txok" then
    match stripLit (go "true") text with
    | some rest => some ({ v with ResponseOK := true }, rest)
    | none =>
    match stripLit (go "false") text with
    | some rest => some ({ v with ResponseOK := false }, rest)
    | none => (stripLit (go "null") text).map fun rest => (v, rest)
  else if key = go "message" then
    match stripLit (go "\"") text with
    | some t1 => (unquoteFrom 0 t1).map fun p => ({ v with Message := p.1 }, p.2)
    | none => (stripLit (go "null") text).map fun rest => (v, rest)
  else if key = go "data" then
    (decodeData text v.Data).map fun p => ({ v with Data := p.1 }, p.2)
  else none

/-- The members of the top-level object, from the text after `{` or after a
comma, up to the closing brace. -/
def decodeMembers : Nat → List UInt8 → authResponse → Option (authResponse × List UInt8)
  | 0, _, _ => none
  | fuel + 1, text, v =>
    match stripLit (go "\"") text with
    | none => none
    | some t1 =>
    match unquoteFrom 0 t1 with
    | none => none
    | some (key, t2) =>
    match stripLit (go ":") t2 with
    | none => none
    | some t3 =>
    match decodeField key t3 v with
    | none => none
    | some (v2, t4) =>
    match t4 with
    | [] => none
    | s :: t5 =>
      if s.toNat = 0x2C then decodeMembers fuel t5 v2
      else if s.toNat = 0x7D then some (v2, t5)
      else none

/-- The function `transformJSONToObject` of the source with a pointer to an
`authResponse` as its second argument: the value the pointer holds after the
call, or `none` when the decoder reports an error. -/
def transformJSONToObject (jsonData : List UInt8) (v : authResponse) : Option authResponse :=
  match stripLit (go "\x7b\x7d") jsonData with
  | some _ => some v
  | none =>
  match stripLit (go "\x7b") jsonData with
  | some rest => (decodeMembers rest.length rest v).map fun p => p.1
  | none => none

/-- The text the string encoder writes for one code point of a valid string. -/
def escapeChar (c : Char) : List UInt8 :=
  if c.toNat < 0x80 then
    (if htmlSafe c.toNat.toUInt8 then [c.toNat.toUInt8] else escapeByte c.toNat.toUInt8)
  else if c.toNat = 0x2028 ∨ c.toNat = 0x2029 then go "\\u202" ++ [hexDigit (c.toNat % 16)]
  else encodeRune c

/-- The bindings of a map are listed in strictly increasing key order. -/
def SortedKeys (m : List (GoString × GoString)) : Prop :=
  m.Pairwise fun a b => bytesLt a.1 b.1 = true

/-- The strings of a response are valid UTF-8 and its map, when not nil, lists
its bindings in increasing key order. -/
def WellFormedResponse (r : authResponse) : Prop :=
  ValidUTF8 r.Message ∧
    ∀ m, r.Data = some m → SortedKeys m ∧ ∀ kv ∈ m, ValidUTF8 kv.1 ∧ ValidUTF8 kv.2

/-! ## Lemmas on the loops and on the effects of a run -/

theorem userLoop_nil (st : LoopState) : userLoop [] st = st := rfl

theorem userLoop_cons (e : Entry) (es : List Entry) (st : LoopState) :
    userLoop (e :: es) st = userLoop es
      ⟨e.GetAttributeValue (go "sAMAccountName"), true,
        st.events ++ [Event.Printf (go "Found " ++ e.DN ++ go " -> " ++
          e.GetAttributeValue (go "sAMAccountName") ++ go "\n")]⟩ := rfl

theorem userLoop_found (es : List Entry) (st : LoopState) :
    (userLoop es st).found = (st.found || !es.isEmpty) := by
  induction es generalizing st with
  | nil => simp [userLoop_nil]
  | cons e es ih => simp [userLoop_cons, ih]

theorem userLoop_name (es : List Entry) (st : LoopState) :
    (userLoop es st).sAMAccountName =
      (es.getLast?.map fun e => e.GetAttributeValue (go "sAMAccountName")).getD
        st.sAMAccountName := by
  induction es generalizing st with
  | nil => simp [userLoop_nil]
  | cons e es ih =>
    rw [userLoop_cons, ih]
    cases es with
    | nil => simp
    | cons e2 es2 => simp [List.getLast?_cons_cons, List.getLast?_cons]

theorem userLoop_name_eq (es : List Entry) (f : Bool) (t : List Event) :
    (userLoop es ⟨[], f, t⟩).sAMAccountName = resolvedName es := by
  simp [resolvedName, userLoop_name]

theorem userLoop_searches (es : List Entry) (st : LoopState) :
    searches (userLoop es st).events = searches st.events := by
  induction es generalizing st with
  | nil => simp [userLoop_nil]
  | cons e es ih =>
    rw [userLoop_cons, ih]
    simp [searches, Event.search?]

theorem userLoop_close (es : List Entry) (st : LoopState) :
    closeCount (userLoop es st).events = closeCount st.events := by
  induction es generalizing st with
  | nil => simp [userLoop_nil]
  | cons e es ih =>
    rw [userLoop_cons, ih]
    simp [closeCount]

theorem groupLoop_nil (st : LoopState) : groupLoop [] st = st := rfl

theorem groupLoop_cons (e : Entry) (es : List Entry) (st : LoopState) :
    groupLoop (e :: es) st = groupLoop es
      ⟨e.GetAttributeValue (go "sAMAccountName"), true,
        st.events ++ [Event.Printf (go "Found in the group! " ++ e.DN ++ go " -> " ++
          e.GetAttributeValue (go "sAMAccountName") ++ go "\n")]⟩ := rfl

theorem groupLoop_found (es : List Entry) (st : LoopState) :
    (groupLoop es st).found = (st.found || !es.isEmpty) := by
  induction es generalizing st with
  | nil => simp [groupLoop_nil]
  | cons e es ih => simp [groupLoop_cons, ih]

theorem groupLoop_searches (es : List Entry) (st : LoopState) :
    searches (groupLoop es st).events = searches st.events := by
  induction es generalizing st with
  | nil => simp [groupLoop_nil]
  | cons e es ih =>
    rw [groupLoop_cons, ih]
    simp [searches, Event.search?]

theorem groupLoop_close (es : List Entry) (st : LoopState) :
    closeCount (groupLoop es st).events = closeCount st.events := by
  induction es generalizing st with
  | nil => simp [groupLoop_nil]
  | cons e es ih =>
    rw [groupLoop_cons, ih]
    simp [closeCount]

theorem searches_append (a b : List Event) : searches (a ++ b) = searches a ++ searches b := by
  simp [searches]

theorem closeCount_append (a b : List Event) :
    closeCount (a ++ b) = closeCount a + closeCount b := by
  simp [closeCount]

/-- The searches of a run whose session opens and whose first search finds entries. -/
theorem searches_of_found (config : ldapConfig) (l : Directory) (ar : authRequest)
    (usr : SearchResult) (hOpen : SessionOpens config l)
    (hSearch : l.Search 0 (userSearchRequest config ar) = Except.ok usr)
    (hSome : usr.Entries ≠ []) :
    searches (checkAccessForUser config l ar).events =
      [userSearchRequest config ar, groupSearchRequest config (resolvedName usr.Entries) ar] := by
  obtain ⟨hDial, hTLS, hBind⟩ := hOpen
  simp only [checkAccessForUser, checkAccessBody, hDial, hTLS, hBind, hSearch]
  simp only [userLoop_found, userLoop_name_eq]
  simp [hSome]
  cases hG : l.Search 1 (groupSearchRequest config (resolvedName usr.Entries) ar) with
  | error e =>
    simp [logFatal, deferClose, searches_append, userLoop_searches]
    simp [searches, Event.search?]
  | ok gsr =>
    simp only [groupLoop_found]
    by_cases hg : gsr.Entries = []
    · simp [hg, deferClose, searches_append, userLoop_searches, groupLoop_nil]
      simp [searches, Event.search?]
    · simp [hg, deferClose, searches_append, userLoop_searches, groupLoop_searches]
      simp [searches, Event.search?]

theorem searches_shape (config : ldapConfig) (l : Directory) (ar : authRequest) :
    searches (checkAccessForUser config l ar).events = [] ∨
    searches (checkAccessForUser config l ar).events = [userSearchRequest config ar] ∨
    ∃ n, searches (checkAccessForUser config l ar).events =
      [userSearchRequest config ar, groupSearchRequest config n ar] := by
  cases hDial : l.Dial (go "tcp") (dialAddress config) with
  | some e => left; simp [checkAccessForUser, hDial, logFatal, searches, Event.search?]
  | none =>
  cases hTLS : l.StartTLS true with
  | some e =>
    left; simp [checkAccessForUser, checkAccessBody, hDial, hTLS, logFatal, deferClose, searches, Event.search?]
  | none =>
  cases hBind : l.Bind config.SearchUser config.SearchPass with
  | some e =>
    left; simp [checkAccessForUser, checkAccessBody, hDial, hTLS, hBind, logFatal, deferClose, searches, Event.search?]
  | none =>
  cases hSearch : l.Search 0 (userSearchRequest config ar) with
  | error e =>
    right; left
    simp [checkAccessForUser, checkAccessBody, hDial, hTLS, hBind, hSearch, logFatal, deferClose, searches, Event.search?]
  | ok usr =>
  by_cases hSome : usr.Entries = []
  · right; left
    simp [checkAccessForUser, checkAccessBody, hDial, hTLS, hBind, hSearch, hSome, userLoop_nil, deferClose, searches, Event.search?]
  · right; right
    exact ⟨_, searches_of_found config l ar usr ⟨hDial, hTLS, hBind⟩ hSearch hSome⟩

/-! ## The verdicts (claims C1 to C4) -/

/-- Claim C1: when connect, StartTLS and bind succeed and the identity search
returns no entry, `checkAccessForUser` returns `ResponseOK = false` with the
message made of the decimal id followed by " was not found in the directory",
and the identity search is the only search issued. -/
theorem not_found_verdict (config : ldapConfig) (l : Directory) (ar : authRequest)
    (usr : SearchResult) (hOpen : SessionOpens config l)
    (hSearch : l.Search 0 (userSearchRequest config ar) = Except.ok usr)
    (hNone : usr.Entries = []) :
    (checkAccessForUser config l ar).outcome =
        Outcome.returned ⟨false, fmtD ar.ID ++ go " was not found in the directory", none⟩ ∧
      searches (checkAccessForUser config l ar).events = [userSearchRequest config ar] := by
  obtain ⟨hDial, hTLS, hBind⟩ := hOpen
  simp [checkAccessForUser, checkAccessBody, hDial, hTLS, hBind, hSearch, hNone, userLoop_nil,
    deferClose, authResponse.zero, searches, Event.search?]

/-- Scenario B: id 9999 absent from the directory gives the message
"9999 was not found in the directory" and a single search. -/
theorem not_found_verdict_witness :
    (checkAccessForUser exampleConfig (scriptedDirectory (Except.ok ⟨[]⟩) (Except.ok ⟨[]⟩))
        ⟨9999, go "Engineers"⟩).outcome =
        Outcome.returned ⟨false, go "9999 was not found in the directory", none⟩ ∧
      searches (checkAccessForUser exampleConfig
        (scriptedDirectory (Except.ok ⟨[]⟩) (Except.ok ⟨[]⟩)) ⟨9999, go "Engineers"⟩).events =
        [userSearchRequest exampleConfig ⟨9999, go "Engineers"⟩] :=
  not_found_verdict exampleConfig (scriptedDirectory (Except.ok ⟨[]⟩) (Except.ok ⟨[]⟩))
    ⟨9999, go "Engineers"⟩ ⟨[]⟩ ⟨rfl, rfl, rfl⟩ rfl rfl

/-- Claim C2: when the identity search returns at least one entry and the
membership search returns none, `checkAccessForUser` returns `ResponseOK =
false` with the message "User <name> with ID <id> not in the <groupName>
group", built from the name resolved in step 1, the decimal id and the group
name of the request taken verbatim. -/
theorem not_in_group_verdict (config : ldapConfig) (l : Directory) (ar : authRequest)
    (usr gsr : SearchResult) (hOpen : SessionOpens config l)
    (hSearch : l.Search 0 (userSearchRequest config ar) = Except.ok usr)
    (hSome : usr.Entries ≠ [])
    (hGroup : l.Search 1 (groupSearchRequest config (resolvedName usr.Entries) ar) =
      Except.ok gsr)
    (hNone : gsr.Entries = []) :
    (checkAccessForUser config l ar).outcome =
      Outcome.returned ⟨false, go "User " ++ resolvedName usr.Entries ++ go " with ID " ++
        fmtD ar.ID ++ go " not in the " ++ ar.GroupName ++ go " group", none⟩ := by
  obtain ⟨hDial, hTLS, hBind⟩ := hOpen
  simp [checkAccessForUser, checkAccessBody, hDial, hTLS, hBind, hSearch, hNone, hSome,
    userLoop_found, userLoop_name_eq, hGroup, groupLoop_nil, deferClose, authResponse.zero]

/-- Scenario C: the id resolves to `jsmith`, who is not in `Engineers`. -/
theorem not_in_group_verdict_witness :
    (checkAccessForUser exampleConfig
        (scriptedDirectory (Except.ok ⟨[entryOf "CN=John Smith,DC=example,DC=org" "jsmith"]⟩)
          (Except.ok ⟨[]⟩))
        ⟨1234, go "Engineers"⟩).outcome =
      Outcome.returned ⟨false, go "User jsmith with ID 1234 not in the Engineers group", none⟩ :=
  not_in_group_verdict exampleConfig
    (scriptedDirectory (Except.ok ⟨[entryOf "CN=John Smith,DC=example,DC=org" "jsmith"]⟩)
      (Except.ok ⟨[]⟩))
    ⟨1234, go "Engineers"⟩ ⟨[entryOf "CN=John Smith,DC=example,DC=org" "jsmith"]⟩ ⟨[]⟩
    ⟨rfl, rfl, rfl⟩ rfl (by decide) rfl rfl

/-- Claim C3: when the identity search and the membership search each return
at least one entry, `checkAccessForUser` returns `ResponseOK = true` with the
message "OK"; and a returned `ResponseOK = true` occurs only then: the session
opened and both searches answered with at least one entry. -/
theorem ok_verdict_iff (config : ldapConfig) (l : Directory) (ar : authRequest) :
    (∀ usr gsr, SessionOpens config l →
      l.Search 0 (userSearchRequest config ar) = Except.ok usr → usr.Entries ≠ [] →
      l.Search 1 (groupSearchRequest config (resolvedName usr.Entries) ar) = Except.ok gsr →
      gsr.Entries ≠ [] →
      (checkAccessForUser config l ar).outcome = Outcome.returned ⟨true, go "OK", none⟩) ∧
    (∀ r, (checkAccessForUser config l ar).outcome = Outcome.returned r →
      r.ResponseOK = true →
      SessionOpens config l ∧ ∃ usr gsr,
        l.Search 0 (userSearchRequest config ar) = Except.ok usr ∧ usr.Entries ≠ [] ∧
        l.Search 1 (groupSearchRequest config (resolvedName usr.Entries) ar) = Except.ok gsr ∧
        gsr.Entries ≠ []) := by
  constructor
  · intro usr gsr hOpen hSearch hSome hGroup hIn
    obtain ⟨hDial, hTLS, hBind⟩ := hOpen
    simp [checkAccessForUser, checkAccessBody, hDial, hTLS, hBind, hSearch, hSome, hIn,
      userLoop_found, userLoop_name_eq, hGroup, groupLoop_found, deferClose, authResponse.zero]
  · intro r hr hOK
    cases hDial : l.Dial (go "tcp") (dialAddress config) with
    | some e => simp [checkAccessForUser, hDial, logFatal] at hr
    | none =>
    cases hTLS : l.StartTLS true with
    | some e => simp [checkAccessForUser, checkAccessBody, hDial, hTLS, logFatal, deferClose] at hr
    | none =>
    cases hBind : l.Bind config.SearchUser config.SearchPass with
    | some e =>
      simp [checkAccessForUser, checkAccessBody, hDial, hTLS, hBind, logFatal, deferClose] at hr
    | none =>
    cases hSearch : l.Search 0 (userSearchRequest config ar) with
    | error e =>
      simp [checkAccessForUser, checkAccessBody, hDial, hTLS, hBind, hSearch, logFatal,
        deferClose] at hr
    | ok usr =>
    by_cases hSome : usr.Entries = []
    · simp [checkAccessForUser, checkAccessBody, hDial, hTLS, hBind, hSearch, hSome, userLoop_nil,
        deferClose] at hr
      rw [← hr] at hOK
      simp at hOK
    · cases hGroup : l.Search 1 (groupSearchRequest config (resolvedName usr.Entries) ar) with
      | error e =>
        simp [checkAccessForUser, checkAccessBody, hDial, hTLS, hBind, hSearch, hSome,
          userLoop_found, userLoop_name_eq, hGroup, logFatal, deferClose] at hr
      | ok gsr =>
        by_cases hIn : gsr.Entries = []
        · simp [checkAccessForUser, checkAccessBody, hDial, hTLS, hBind, hSearch, hSome,
            userLoop_found, userLoop_name_eq, hGroup, hIn, groupLoop_nil, deferClose] at hr
          rw [← hr] at hOK
          simp at hOK
        · exact ⟨⟨hDial, hTLS, hBind⟩, usr, gsr, rfl, hSome, hGroup, hIn⟩

/-- Scenario A: id 5039 and the group of the source's sample request, with a
matching account and membership, give `ResponseOK = true` and "OK". -/
theorem ok_verdict_iff_witness :
    (checkAccessForUser exampleConfig
        (scriptedDirectory (Except.ok ⟨[entryOf "CN=Pat Doe,DC=example,DC=org" "pdoe"]⟩)
          (Except.ok ⟨[entryOf "CN=Pat Doe,DC=example,DC=org" "pdoe"]⟩))
        ⟨5039, go "EpilogAuthorized,OU=Epilog,OU=CNC,OU=Authorized Groups,OU=Domain Groups"⟩).outcome =
      Outcome.returned ⟨true, go "OK", none⟩ :=
  (ok_verdict_iff exampleConfig
    (scriptedDirectory (Except.ok ⟨[entryOf "CN=Pat Doe,DC=example,DC=org" "pdoe"]⟩)
      (Except.ok ⟨[entryOf "CN=Pat Doe,DC=example,DC=org" "pdoe"]⟩))
    ⟨5039, go "EpilogAuthorized,OU=Epilog,OU=CNC,OU=Authorized Groups,OU=Domain Groups"⟩).1
    ⟨[entryOf "CN=Pat Doe,DC=example,DC=org" "pdoe"]⟩
    ⟨[entryOf "CN=Pat Doe,DC=example,DC=org" "pdoe"]⟩
    ⟨rfl, rfl, rfl⟩ rfl (by decide) rfl (by decide)

/-- The name the first loop resolves is the `sAMAccountName` of the last entry. -/
theorem resolvedName_eq_last (es : List Entry) (h : es ≠ []) :
    resolvedName es = (es.getLast h).GetAttributeValue (go "sAMAccountName") := by
  simp [resolvedName, userLoop_name, List.getLast?_eq_getLast _ h]

/-- Claim C4, as stated, fails: with two identity entries named `alice` and
`bob`, the name carried into step 2 is not that of the first entry (`alice`);
the membership filter and the not-in-group message carry `bob`. -/
theorem first_entry_not_carried :
    (entryOf "CN=Alice,DC=example,DC=org" "alice").GetAttributeValue (go "sAMAccountName") =
        go "alice" ∧
      searches (checkAccessForUser exampleConfig
        (scriptedDirectory
          (Except.ok ⟨[entryOf "CN=Alice,DC=example,DC=org" "alice",
            entryOf "CN=Bob,DC=example,DC=org" "bob"]⟩)
          (Except.ok ⟨[]⟩))
        ⟨5039, go "Engineers"⟩).events ≠
        [userSearchRequest exampleConfig ⟨5039, go "Engineers"⟩,
         groupSearchRequest exampleConfig (go "alice") ⟨5039, go "Engineers"⟩] ∧
      (checkAccessForUser exampleConfig
        (scriptedDirectory
          (Except.ok ⟨[entryOf "CN=Alice,DC=example,DC=org" "alice",
            entryOf "CN=Bob,DC=example,DC=org" "bob"]⟩)
          (Except.ok ⟨[]⟩))
        ⟨5039, go "Engineers"⟩).outcome =
        Outcome.returned ⟨false, go "User bob with ID 5039 not in the Engineers group", none⟩ := by
  decide

/-- Claim C4, amended: for every identity search result with one or more
entries, the account name carried into step 2 is the `sAMAccountName` of the
last entry of the result: the membership search issued is the one built from
that name, and when that search finds nothing the not-in-group message carries
that name. -/
theorem last_entry_carried (config : ldapConfig) (l : Directory) (ar : authRequest)
    (usr : SearchResult) (hOpen : SessionOpens config l)
    (hSearch : l.Search 0 (userSearchRequest config ar) = Except.ok usr)
    (hSome : usr.Entries ≠ []) :
    searches (checkAccessForUser config l ar).events =
        [userSearchRequest config ar,
         groupSearchRequest config
           ((usr.Entries.getLast hSome).GetAttributeValue (go "sAMAccountName")) ar] ∧
      ∀ gsr, l.Search 1 (groupSearchRequest config
            ((usr.Entries.getLast hSome).GetAttributeValue (go "sAMAccountName")) ar) =
          Except.ok gsr → gsr.Entries = [] →
        (checkAccessForUser config l ar).outcome =
          Outcome.returned ⟨false, go "User " ++
            (usr.Entries.getLast hSome).GetAttributeValue (go "sAMAccountName") ++
            go " with ID " ++ fmtD ar.ID ++ go " not in the " ++ ar.GroupName ++ go " group",
            none⟩ := by
  rw [← resolvedName_eq_last usr.Entries hSome]
  exact ⟨searches_of_found config l ar usr hOpen hSearch hSome, fun gsr hGroup hNone => by
    obtain ⟨hDial, hTLS, hBind⟩ := hOpen
    simp [checkAccessForUser, checkAccessBody, hDial, hTLS, hBind, hSearch, hNone, hSome,
      userLoop_found, userLoop_name_eq, hGroup, groupLoop_nil, deferClose, authResponse.zero]⟩

/-- Two identity entries `alice` then `bob`: the membership search asks about
`bob`. -/
theorem last_entry_carried_witness :
    searches (checkAccessForUser exampleConfig
        (scriptedDirectory
          (Except.ok ⟨[entryOf "CN=Alice,DC=example,DC=org" "alice",
            entryOf "CN=Bob,DC=example,DC=org" "bob"]⟩)
          (Except.ok ⟨[]⟩))
        ⟨5039, go "Engineers"⟩).events =
      [userSearchRequest exampleConfig ⟨5039, go "Engineers"⟩,
       groupSearchRequest exampleConfig (go "bob") ⟨5039, go "Engineers"⟩] :=
  (last_entry_carried exampleConfig
    (scriptedDirectory
      (Except.ok ⟨[entryOf "CN=Alice,DC=example,DC=org" "alice",
        entryOf "CN=Bob,DC=example,DC=org" "bob"]⟩)
      (Except.ok ⟨[]⟩))
    ⟨5039, go "Engineers"⟩
    ⟨[entryOf "CN=Alice,DC=example,DC=org" "alice", entryOf "CN=Bob,DC=example,DC=org" "bob"]⟩
    ⟨rfl, rfl, rfl⟩ rfl (by decide)).1

/-! ## Failures of the directory layer (claims C5 and C6) -/

/-- A run that returns a value has called `Close` exactly once, and a run that
ends the process has not called it. -/
theorem close_count (config : ldapConfig) (l : Directory) (ar : authRequest) :
    (∀ r, (checkAccessForUser config l ar).outcome = Outcome.returned r →
      closeCount (checkAccessForUser config l ar).events = 1) ∧
    (∀ s, (checkAccessForUser config l ar).outcome = Outcome.exited s →
      closeCount (checkAccessForUser config l ar).events = 0) := by
  cases hDial : l.Dial (go "tcp") (dialAddress config) with
  | some e => simp [checkAccessForUser, hDial, logFatal, closeCount]
  | none =>
  cases hTLS : l.StartTLS true with
  | some e => simp [checkAccessForUser, checkAccessBody, hDial, hTLS, logFatal, deferClose, closeCount]
  | none =>
  cases hBind : l.Bind config.SearchUser config.SearchPass with
  | some e =>
    simp [checkAccessForUser, checkAccessBody, hDial, hTLS, hBind, logFatal, deferClose, closeCount]
  | none =>
  cases hSearch : l.Search 0 (userSearchRequest config ar) with
  | error e =>
    simp [checkAccessForUser, checkAccessBody, hDial, hTLS, hBind, hSearch, logFatal, deferClose,
      closeCount]
  | ok usr =>
  by_cases hSome : usr.Entries = []
  · simp [checkAccessForUser, checkAccessBody, hDial, hTLS, hBind, hSearch, hSome, userLoop_nil,
      deferClose, closeCount]
  · cases hGroup : l.Search 1 (groupSearchRequest config (resolvedName usr.Entries) ar) with
    | error e =>
      simp [checkAccessForUser, checkAccessBody, hDial, hTLS, hBind, hSearch, hSome,
        userLoop_found, userLoop_name_eq, hGroup, logFatal, deferClose, closeCount_append,
        userLoop_close]
      simp [closeCount]
    | ok gsr =>
      by_cases hIn : gsr.Entries = []
      · simp [checkAccessForUser, checkAccessBody, hDial, hTLS, hBind, hSearch, hSome,
          userLoop_found, userLoop_name_eq, hGroup, hIn, groupLoop_nil, deferClose,
          closeCount_append, userLoop_close]
        simp [closeCount]
      · simp [checkAccessForUser, checkAccessBody, hDial, hTLS, hBind, hSearch, hSome,
          userLoop_found, userLoop_name_eq, hGroup, hIn, groupLoop_found, deferClose,
          closeCount_append, userLoop_close, groupLoop_close]
        simp [closeCount]

/-- Claim C5, the code at a failing input: against a directory that cannot be
reached, `checkAccessForUser` does not return a response carrying the error
text; it logs the error and the process exits with status 1. -/
theorem unreachable_directory_exits :
    checkAccessForUser exampleConfig unreachableDirectory ⟨5039, go "Engineers"⟩ =
      ⟨Outcome.exited 1,
        [Event.Dial (go "tcp") (go "ad.example.org:389"),
         Event.LogFatal (go "dial tcp: connection refused")]⟩ := by
  decide

/-- Claim C6, the code at a failing input: when `Dial` succeeds and the
StartTLS upgrade fails, the process exits and `Close` is never called on the
session that was opened. -/
theorem failed_upgrade_never_closes :
    noTLSDirectory.Dial (go "tcp") (dialAddress exampleConfig) = none ∧
      closeCount (checkAccessForUser exampleConfig noTLSDirectory
        ⟨5039, go "Engineers"⟩).events = 0 ∧
      checkAccessForUser exampleConfig noTLSDirectory ⟨5039, go "Engineers"⟩ =
        ⟨Outcome.exited 1,
          [Event.Dial (go "tcp") (go "ad.example.org:389"), Event.StartTLS true,
           Event.LogFatal (go "TLS handshake failed")]⟩ := by
  decide

/-- Every failure of the directory layer ends the process: whichever of
connect, StartTLS, bind, identity search or membership search answers with an
error, the run ends with exit status 1, not with a returned response. -/
theorem directory_failure_exits (config : ldapConfig) (l : Directory) (ar : authRequest)
    (e : GoString) :
    (l.Dial (go "tcp") (dialAddress config) = some e →
      (checkAccessForUser config l ar).outcome = Outcome.exited 1) ∧
    (l.Dial (go "tcp") (dialAddress config) = none → l.StartTLS true = some e →
      (checkAccessForUser config l ar).outcome = Outcome.exited 1) ∧
    (l.Dial (go "tcp") (dialAddress config) = none → l.StartTLS true = none →
      l.Bind config.SearchUser config.SearchPass = some e →
      (checkAccessForUser config l ar).outcome = Outcome.exited 1) ∧
    (SessionOpens config l → l.Search 0 (userSearchRequest config ar) = Except.error e →
      (checkAccessForUser config l ar).outcome = Outcome.exited 1) ∧
    (∀ usr, SessionOpens config l → l.Search 0 (userSearchRequest config ar) = Except.ok usr →
      usr.Entries ≠ [] →
      l.Search 1 (groupSearchRequest config (resolvedName usr.Entries) ar) = Except.error e →
      (checkAccessForUser config l ar).outcome = Outcome.exited 1) := by
  refine ⟨?_, ?_, ?_, ?_, ?_⟩
  · intro hDial
    simp [checkAccessForUser, hDial, logFatal]
  · intro hDial hTLS
    simp [checkAccessForUser, checkAccessBody, hDial, hTLS, logFatal, deferClose]
  · intro hDial hTLS hBind
    simp [checkAccessForUser, checkAccessBody, hDial, hTLS, hBind, logFatal, deferClose]
  · rintro ⟨hDial, hTLS, hBind⟩ hSearch
    simp [checkAccessForUser, checkAccessBody, hDial, hTLS, hBind, hSearch, logFatal, deferClose]
  · rintro usr ⟨hDial, hTLS, hBind⟩ hSearch hSome hGroup
    simp [checkAccessForUser, checkAccessBody, hDial, hTLS, hBind, hSearch, hSome,
      userLoop_found, userLoop_name_eq, hGroup, logFatal, deferClose]

/-! ## The search requests (claims C7 and C9) -/

/-- Claim C7: for every resolved account name `n`, group name `g` of the
request and configured base DN `b`, the membership search issued has the
filter "(&(objectClass=user)(sAMAccountName=" n ")(memberOf=CN=" g "," b "))":
the group name is taken verbatim and the base DN is always appended. -/
theorem membership_filter_text (config : ldapConfig) (l : Directory) (ar : authRequest)
    (usr : SearchResult) (n : GoString) (hOpen : SessionOpens config l)
    (hSearch : l.Search 0 (userSearchRequest config ar) = Except.ok usr)
    (hSome : usr.Entries ≠ []) (hName : resolvedName usr.Entries = n) :
    ∃ q, searches (checkAccessForUser config l ar).events = [userSearchRequest config ar, q] ∧
      q.Filter = go "(&(objectClass=user)(sAMAccountName=" ++ n ++ go ")(memberOf=CN=" ++
        ar.GroupName ++ go "," ++ config.BaseDN ++ go "))" := by
  subst hName
  exact ⟨_, searches_of_found config l ar usr hOpen hSearch hSome, rfl⟩

set_option maxRecDepth 8000 in
/-- A group name that is already fully qualified still gets the base DN
appended. -/
theorem membership_filter_text_witness :
    ∃ q, searches (checkAccessForUser exampleConfig
        (scriptedDirectory (Except.ok ⟨[entryOf "CN=John Smith,DC=example,DC=org" "jsmith"]⟩)
          (Except.ok ⟨[]⟩))
        ⟨1234, go "Engineers,DC=example,DC=org"⟩).events =
        [userSearchRequest exampleConfig ⟨1234, go "Engineers,DC=example,DC=org"⟩, q] ∧
      q.Filter = go "(&(objectClass=user)(sAMAccountName=jsmith)" ++
        go "(memberOf=CN=Engineers,DC=example,DC=org,DC=example,DC=org))" :=
  membership_filter_text exampleConfig
    (scriptedDirectory (Except.ok ⟨[entryOf "CN=John Smith,DC=example,DC=org" "jsmith"]⟩)
      (Except.ok ⟨[]⟩))
    ⟨1234, go "Engineers,DC=example,DC=org"⟩
    ⟨[entryOf "CN=John Smith,DC=example,DC=org" "jsmith"]⟩ (go "jsmith")
    ⟨rfl, rfl, rfl⟩ rfl (by decide) (by decide)

/-- Claim C9: for every configuration and every integer id, the identity
search request has the configured base DN, whole-subtree scope, no alias
dereferencing, the attribute list `["sAMAccountName"]` and the filter
"(&(objectClass=user)(" SearchAttr "=" decimal id "))"; it is the first search
of every run whose session opens; and every search a run issues, the
membership search included, has the same base DN, scope, alias setting and
attribute list. -/
theorem search_request_fields (config : ldapConfig) (l : Directory) (ar : authRequest) :
    (userSearchRequest config ar).Filter =
        go "(&(objectClass=user)(" ++ config.SearchAttr ++ go "=" ++ fmtD ar.ID ++ go "))" ∧
      (SessionOpens config l →
        (searches (checkAccessForUser config l ar).events).head? =
          some (userSearchRequest config ar)) ∧
      ∀ q ∈ searches (checkAccessForUser config l ar).events,
        q.BaseDN = config.BaseDN ∧ q.Scope = Scope.ScopeWholeSubtree ∧
        q.DerefAliases = DerefAliases.NeverDerefAliases ∧
        q.Attributes = [go "sAMAccountName"] := by
  refine ⟨rfl, ?_, ?_⟩
  · rintro ⟨hDial, hTLS, hBind⟩
    cases hSearch : l.Search 0 (userSearchRequest config ar) with
    | error e =>
      simp [checkAccessForUser, checkAccessBody, hDial, hTLS, hBind, hSearch, logFatal,
        deferClose, searches, Event.search?]
    | ok usr =>
      by_cases hSome : usr.Entries = []
      · simp [checkAccessForUser, checkAccessBody, hDial, hTLS, hBind, hSearch, hSome,
          userLoop_nil, deferClose, searches, Event.search?]
      · rw [searches_of_found config l ar usr ⟨hDial, hTLS, hBind⟩ hSearch hSome]
        rfl
  · intro q hq
    rcases searches_shape config l ar with h | h | ⟨n, h⟩
    · simp [h] at hq
    · simp [h] at hq
      subst hq
      exact ⟨rfl, rfl, rfl, rfl⟩
    · simp [h] at hq
      rcases hq with hq | hq <;> subst hq <;> exact ⟨rfl, rfl, rfl, rfl⟩

/-- The identity filter for id 0 and for a negative id. -/
theorem search_request_fields_witness :
    (searches (checkAccessForUser exampleConfig
        (scriptedDirectory (Except.ok ⟨[]⟩) (Except.ok ⟨[]⟩)) ⟨-42, go "Engineers"⟩).events).head? =
        some (userSearchRequest exampleConfig ⟨-42, go "Engineers"⟩) ∧
      (userSearchRequest exampleConfig ⟨-42, go "Engineers"⟩).Filter =
        go "(&(objectClass=user)(uidNumber=-42))" ∧
      (userSearchRequest exampleConfig ⟨0, go "Engineers"⟩).Filter =
        go "(&(objectClass=user)(uidNumber=0))" :=
  ⟨(search_request_fields exampleConfig (scriptedDirectory (Except.ok ⟨[]⟩) (Except.ok ⟨[]⟩))
      ⟨-42, go "Engineers"⟩).2.1 ⟨rfl, rfl, rfl⟩,
    (search_request_fields exampleConfig (scriptedDirectory (Except.ok ⟨[]⟩) (Except.ok ⟨[]⟩))
      ⟨-42, go "Engineers"⟩).1,
    (search_request_fields exampleConfig (scriptedDirectory (Except.ok ⟨[]⟩) (Except.ok ⟨[]⟩))
      ⟨0, go "Engineers"⟩).1⟩

/-! ## The membership filter as the directory reads it (claim C8) -/

theorem readFrom_append (s : ReadState) (x y : List UInt8) :
    readFrom s (x ++ y) = (readFrom s x).bind fun s2 => readFrom s2 y := by
  induction x generalizing s with
  | nil => simp [readFrom]
  | cons b bs ih =>
    simp only [List.cons_append, readFrom]
    cases readStep s b with
    | none => simp
    | some s2 => simpa using ih s2

theorem readFrom_value (done : List FilterTest) (name text v : GoString)
    (h : (41 : UInt8) ∉ v) :
    readFrom (ReadState.value done name text) v = some (ReadState.value done name (text ++ v)) := by
  induction v generalizing text with
  | nil => simp [readFrom]
  | cons b bs ih =>
    simp only [List.mem_cons, not_or] at h
    have hb : b ≠ 41 := fun e => h.1 e.symm
    simp [readFrom, readStep, hb, ih _ h.2]

theorem unescapeValue_plain (v : GoString) (h : (92 : UInt8) ∉ v) : unescapeValue v = some v := by
  induction v with
  | nil => simp [unescapeValue]
  | cons b bs ih =>
    simp only [List.mem_cons, not_or] at h
    have hb : b ≠ 92 := fun e => h.1 e.symm
    unfold unescapeValue
    rw [if_neg hb, ih h.2]
    rfl

theorem readTest_plain (a v : GoString) (h42 : (42 : UInt8) ∉ v) (h92 : (92 : UInt8) ∉ v) :
    readTest a v = some (FilterTest.equality a v) := by
  have h1 : v ≠ [42] := by
    intro e
    rw [e] at h42
    simp at h42
  simp [readTest, h1, h42, unescapeValue_plain v h92]

theorem reads_three (n w : GoString) (hn : PlainValue n) (hw : PlainValue w) :
    readConjunction (go "(&(objectClass=user)(sAMAccountName=" ++ (n ++ (go ")(memberOf=" ++
        (w ++ go "))")))) =
      some [FilterTest.equality (go "objectClass") (go "user"),
        FilterTest.equality (go "sAMAccountName") n, FilterTest.equality (go "memberOf") w] := by
  have e1 : go "(&(objectClass=user)(sAMAccountName=" =
      40 :: 38 :: go "(objectClass=user)(sAMAccountName=" := by decide
  have s1 : readFrom (ReadState.between []) (go "(objectClass=user)(sAMAccountName=") =
      some (ReadState.value [FilterTest.equality (go "objectClass") (go "user")]
        (go "sAMAccountName") []) := by decide
  have s2 : readFrom (ReadState.value [FilterTest.equality (go "objectClass") (go "user")]
        (go "sAMAccountName") n) (go ")(memberOf=") =
      some (ReadState.value [FilterTest.equality (go "objectClass") (go "user"),
        FilterTest.equality (go "sAMAccountName") n] (go "memberOf") []) := by
    have : go ")(memberOf=" = 41 :: go "(memberOf=" := by decide
    rw [this, readFrom]
    simp only [readStep, if_true, readTest_plain _ n hn.2.1 hn.2.2, Option.map_some']
    rfl
  have s3 : ∀ d, readFrom (ReadState.value d (go "memberOf") w) (go "))") =
      some (ReadState.closed (d ++ [FilterTest.equality (go "memberOf") w])) := by
    intro d
    have : go "))" = [41, 41] := by decide
    rw [this]
    simp only [readFrom, readStep, if_true, readTest_plain _ w hw.2.1 hw.2.2, Option.map_some']
    rfl
  rw [e1]
  simp only [List.cons_append, readConjunction, and_self, if_true, readFrom_append, s1,
    Option.some_bind, readFrom_value _ _ _ _ hn.1, List.nil_append, s2,
    readFrom_value _ _ _ _ hw.1, s3]

theorem reads_intended (config : ldapConfig) (n : GoString) (ar : authRequest)
    (hn : PlainValue n) (hg : PlainValue ar.GroupName) (hb : PlainValue config.BaseDN) :
    readConjunction (groupSearchRequest config n ar).Filter =
      some (intendedTests n ar.GroupName config.BaseDN) := by
  have hw : PlainValue (go "CN=" ++ ar.GroupName ++ go "," ++ config.BaseDN) := by
    simp only [PlainValue, List.mem_append, not_or]
    exact ⟨⟨⟨⟨by decide, hg.1⟩, by decide⟩, hb.1⟩, ⟨⟨⟨by decide, hg.2.1⟩, by decide⟩, hb.2.1⟩,
      ⟨⟨⟨by decide, hg.2.2⟩, by decide⟩, hb.2.2⟩⟩
  have e : (groupSearchRequest config n ar).Filter =
      go "(&(objectClass=user)(sAMAccountName=" ++ (n ++ (go ")(memberOf=" ++
        ((go "CN=" ++ ar.GroupName ++ go "," ++ config.BaseDN) ++ go "))"))) := by
    have : go ")(memberOf=CN=" = go ")(memberOf=" ++ go "CN=" := by decide
    simp only [groupSearchRequest, NewSearchRequest, this, List.append_assoc]
  rw [e, reads_three n _ hn hw]
  rfl

/-- Claim C8, as stated, fails: the group name reaches the filter unescaped.
The group name `Engineers)(objectClass=*` closes the `memberOf` test early and
adds a fourth test, and the group name `*` turns the `memberOf` equality into
a substring match; neither filter reads as the three intended tests. -/
theorem group_name_alters_filter :
    (searches (checkAccessForUser exampleConfig
        (scriptedDirectory (Except.ok ⟨[entryOf "CN=John Smith,DC=example,DC=org" "jsmith"]⟩)
          (Except.ok ⟨[]⟩))
        ⟨1234, go "Engineers)(objectClass=*"⟩).events).map (fun q => readConjunction q.Filter) =
        [some [FilterTest.equality (go "objectClass") (go "user"),
           FilterTest.equality (go "uidNumber") (go "1234")],
         some [FilterTest.equality (go "objectClass") (go "user"),
           FilterTest.equality (go "sAMAccountName") (go "jsmith"),
           FilterTest.equality (go "memberOf") (go "CN=Engineers"),
           FilterTest.substrings (go "objectClass") (go "*,DC=example,DC=org")]] ∧
      readConjunction (groupSearchRequest exampleConfig (go "jsmith")
          ⟨1234, go "Engineers)(objectClass=*"⟩).Filter ≠
        some (intendedTests (go "jsmith") (go "Engineers)(objectClass=*") exampleConfig.BaseDN) ∧
      readConjunction (groupSearchRequest exampleConfig (go "jsmith") ⟨1234, go "*"⟩).Filter =
        some [FilterTest.equality (go "objectClass") (go "user"),
          FilterTest.equality (go "sAMAccountName") (go "jsmith"),
          FilterTest.substrings (go "memberOf") (go "CN=*,DC=example,DC=org")] ∧
      readConjunction (groupSearchRequest exampleConfig (go "jsmith") ⟨1234, go "*"⟩).Filter ≠
        some (intendedTests (go "jsmith") (go "*") exampleConfig.BaseDN) := by
  decide

/-- Claim C8, amended: when the group name, the resolved account name and the
base DN are free of the bytes `)`, `*` and backslash, the membership filter
issued by `checkAccessForUser` reads as a conjunction of exactly the three
equality tests objectClass=user, sAMAccountName=<resolved name> and
memberOf=CN=<group name>,<base DN>. -/
theorem plain_group_name_reads_intended (config : ldapConfig) (l : Directory)
    (ar : authRequest) (usr : SearchResult) (hOpen : SessionOpens config l)
    (hSearch : l.Search 0 (userSearchRequest config ar) = Except.ok usr)
    (hSome : usr.Entries ≠ [])
    (hn : PlainValue (resolvedName usr.Entries)) (hg : PlainValue ar.GroupName)
    (hb : PlainValue config.BaseDN) :
    ∃ q, searches (checkAccessForUser config l ar).events = [userSearchRequest config ar, q] ∧
      readConjunction q.Filter =
        some (intendedTests (resolvedName usr.Entries) ar.GroupName config.BaseDN) :=
  ⟨_, searches_of_found config l ar usr hOpen hSearch hSome,
    reads_intended config (resolvedName usr.Entries) ar hn hg hb⟩

/-- The group `Engineers` and the account `jsmith`: three equality tests. -/
theorem plain_group_name_reads_intended_witness :
    ∃ q, searches (checkAccessForUser exampleConfig
        (scriptedDirectory (Except.ok ⟨[entryOf "CN=John Smith,DC=example,DC=org" "jsmith"]⟩)
          (Except.ok ⟨[]⟩))
        ⟨1234, go "Engineers"⟩).events =
        [userSearchRequest exampleConfig ⟨1234, go "Engineers"⟩, q] ∧
      readConjunction q.Filter =
        some [FilterTest.equality (go "objectClass") (go "user"),
          FilterTest.equality (go "sAMAccountName") (go "jsmith"),
          FilterTest.equality (go "memberOf") (go "CN=Engineers,DC=example,DC=org")] :=
  plain_group_name_reads_intended exampleConfig
    (scriptedDirectory (Except.ok ⟨[entryOf "CN=John Smith,DC=example,DC=org" "jsmith"]⟩)
      (Except.ok ⟨[]⟩))
    ⟨1234, go "Engineers"⟩ ⟨[entryOf "CN=John Smith,DC=example,DC=org" "jsmith"]⟩
    ⟨rfl, rfl, rfl⟩ rfl (by decide) (by decide) (by decide) (by decide)

/-! ## The JSON round trip (claim C10) -/

theorem toUInt8_toNat (n : Nat) : (n.toUInt8).toNat = n % 256 := rfl

theorem char_range (c : Char) :
    c.toNat < 0xD800 ∨ (0xDFFF < c.toNat ∧ c.toNat < 0x110000) := c.valid

theorem decodeRune_encodeRune (c : Char) (rest : List UInt8) :
    decodeRune (encodeRune c ++ rest) = some (c.toNat, (encodeRune c).length) := by
  have hv := char_range c
  simp only [encodeRune]
  generalize c.toNat = v at hv ⊢
  by_cases h1 : v < 0x80
  · have e : v % 256 = v := by omega
    simp [h1, decodeRune, toUInt8_toNat, e]
  · by_cases h2 : v < 0x800
    · have e0 : (0xC0 + v / 64) % 256 = 0xC0 + v / 64 := by omega
      have e1 : (0x80 + v % 64) % 256 = 0x80 + v % 64 := by omega
      simp only [h1, h2, if_false, if_true, List.cons_append, List.nil_append, decodeRune,
        isCont, toUInt8_toNat, e0, e1, List.length_cons, List.length_nil]
      rw [if_neg (by omega), if_pos (by omega), if_pos (decide_eq_true (by omega))]
      have e2 : (192 + v / 64 - 192) * 64 + (128 + v % 64 - 128) = v := by omega
      rw [e2]
    · by_cases h3 : v < 0x10000
      · have e0 : (0xE0 + v / 4096) % 256 = 0xE0 + v / 4096 := by omega
        have e1 : (0x80 + v / 64 % 64) % 256 = 0x80 + v / 64 % 64 := by omega
        have e2 : (0x80 + v % 64) % 256 = 0x80 + v % 64 := by omega
        simp only [h1, h2, h3, if_false, if_true, List.cons_append, List.nil_append, decodeRune,
          isCont, toUInt8_toNat, e0, e1, e2, List.length_cons, List.length_nil]
        rw [if_neg (by omega), if_neg (by omega), if_pos (by omega)]
        have e3 : (224 + v / 4096 - 224) * 4096 + (128 + v / 64 % 64 - 128) * 64 +
            (128 + v % 64 - 128) = v := by omega
        rw [e3]
        by_cases hE0 : 224 + v / 4096 = 224
        · by_cases hED : 224 + v / 4096 = 237
          · omega
          · rw [if_pos hE0, if_neg hED, if_pos ⟨by omega, by omega, decide_eq_true (by omega)⟩]
        · by_cases hED : 224 + v / 4096 = 237
          · rw [if_neg hE0, if_pos hED, if_pos ⟨by omega, by omega, decide_eq_true (by omega)⟩]
          · rw [if_neg hE0, if_neg hED, if_pos ⟨by omega, by omega, decide_eq_true (by omega)⟩]
      · have e0 : (0xF0 + v / 262144) % 256 = 0xF0 + v / 262144 := by omega
        have e1 : (0x80 + v / 4096 % 64) % 256 = 0x80 + v / 4096 % 64 := by omega
        have e2 : (0x80 + v / 64 % 64) % 256 = 0x80 + v / 64 % 64 := by omega
        have e3 : (0x80 + v % 64) % 256 = 0x80 + v % 64 := by omega
        simp only [h1, h2, h3, if_false, if_true, List.cons_append, List.nil_append, decodeRune,
          isCont, toUInt8_toNat, e0, e1, e2, e3, List.length_cons, List.length_nil]
        rw [if_neg (by omega), if_neg (by omega), if_neg (by omega), if_pos (by omega)]
        have e4 : (240 + v / 262144 - 240) * 262144 + (128 + v / 4096 % 64 - 128) * 4096 +
            (128 + v / 64 % 64 - 128) * 64 + (128 + v % 64 - 128) = v := by omega
        rw [e4]
        by_cases hF0 : 240 + v / 262144 = 240
        · by_cases hF4 : 240 + v / 262144 = 244
          · omega
          · rw [if_pos hF0, if_neg hF4,
              if_pos ⟨by omega, by omega, decide_eq_true (by omega), decide_eq_true (by omega)⟩]
        · by_cases hF4 : 240 + v / 262144 = 244
          · rw [if_neg hF0, if_pos hF4,
              if_pos ⟨by omega, by omega, decide_eq_true (by omega), decide_eq_true (by omega)⟩]
          · rw [if_neg hF0, if_neg hF4,
              if_pos ⟨by omega, by omega, decide_eq_true (by omega), decide_eq_true (by omega)⟩]

theorem appendRune_toNat (c : Char) : appendRune c.toNat = encodeRune c := by
  have hv := char_range c
  unfold appendRune encodeRune
  rw [if_neg (by omega)]

theorem encodeRune_ascii (c : Char) (h : c.toNat < 0x80) : encodeRune c = [c.toNat.toUInt8] := by
  simp [encodeRune, h]

/-- The encoding of a non-ASCII code point starts with a byte of 0x80 or more. -/
theorem encodeRune_head (c : Char) (h : 0x80 ≤ c.toNat) :
    ∃ b t, encodeRune c = b :: t ∧ 0x80 ≤ b.toNat := by
  have hv := char_range c
  simp only [encodeRune]
  generalize c.toNat = v at hv h ⊢
  by_cases h2 : v < 0x800
  · refine ⟨_, _, by rw [if_neg (by omega), if_pos h2], ?_⟩
    rw [toUInt8_toNat]
    omega
  · by_cases h3 : v < 0x10000
    · refine ⟨_, _, by rw [if_neg (by omega), if_neg h2, if_pos h3], ?_⟩
      rw [toUInt8_toNat]
      omega
    · refine ⟨_, _, by rw [if_neg (by omega), if_neg h2, if_neg h3], ?_⟩
      rw [toUInt8_toNat]
      omega

theorem appendStringFrom_skip (xs rest : List UInt8) :
    appendStringFrom xs.length (xs ++ rest) = appendStringFrom 0 rest := by
  induction xs with
  | nil => rfl
  | cons x xs ih => simpa [appendStringFrom] using ih

theorem unquoteFrom_skip (xs rest : List UInt8) :
    unquoteFrom xs.length (xs ++ rest) = unquoteFrom 0 rest := by
  induction xs with
  | nil => rfl
  | cons x xs ih => simpa [unquoteFrom] using ih

/-- The string encoder writes a valid string one code point at a time. -/
theorem appendStringFrom_encodeRune (c : Char) (rest : List UInt8) :
    appendStringFrom 0 (encodeRune c ++ rest) = escapeChar c ++ appendStringFrom 0 rest := by
  by_cases h : c.toNat < 0x80
  · have e : c.toNat % 256 = c.toNat := by omega
    simp [encodeRune_ascii c h, appendStringFrom, escapeChar, h, toUInt8_toNat, e]
  · obtain ⟨b, t, hbt, hb⟩ := encodeRune_head c (by omega)
    have hd := decodeRune_encodeRune c rest
    rw [hbt] at hd
    rw [hbt, List.cons_append, appendStringFrom, if_neg (by omega)]
    rw [List.cons_append] at hd
    rw [hd]
    simp only [escapeChar, if_neg h, List.length_cons, Nat.add_sub_cancel]
    by_cases h2 : c.toNat = 0x2028 ∨ c.toNat = 0x2029
    · rw [if_pos h2, if_pos h2, appendStringFrom_skip]
    · rw [if_neg h2, if_neg h2, appendStringFrom_skip, hbt]
      simp

theorem unquoteFrom_ascii (v : Nat) (hv : v < 0x80) (rest : List UInt8) :
    unquoteFrom 0 ((if htmlSafe v.toUInt8 then [v.toUInt8] else escapeByte v.toUInt8) ++ rest) =
      prepend [v.toUInt8] (unquoteFrom 0 rest) := by
  interval_cases v <;> rfl

theorem unquoteFrom_high (b : UInt8) (rest : List UInt8) (hb : 0x80 ≤ b.toNat) :
    unquoteFrom 0 (b :: rest) =
      match decodeRune (b :: rest) with
      | some (r, size) => prepend (appendRune r) (unquoteFrom (size - 1) rest)
      | none => prepend (appendRune 0xFFFD) (unquoteFrom 0 rest) := by
  simp only [unquoteFrom]
  rw [if_neg (by omega), if_neg (by omega), if_neg (by omega), if_neg (by omega)]

/-- The string decoder reads back what the encoder wrote for one code point. -/
theorem unquoteFrom_escapeChar (c : Char) (rest : List UInt8) :
    unquoteFrom 0 (escapeChar c ++ rest) = prepend (encodeRune c) (unquoteFrom 0 rest) := by
  by_cases h : c.toNat < 0x80
  · rw [encodeRune_ascii c h, escapeChar, if_pos h]
    exact unquoteFrom_ascii c.toNat h rest
  · by_cases h2 : c.toNat = 0x2028 ∨ c.toNat = 0x2029
    · simp only [escapeChar, encodeRune]
      generalize c.toNat = v at h h2 ⊢
      rcases h2 with h2 | h2 <;> subst h2 <;> rfl
    · obtain ⟨b, t, hbt, hb⟩ := encodeRune_head c (by omega)
      have hd := decodeRune_encodeRune c rest
      rw [hbt, List.cons_append] at hd
      rw [escapeChar, if_neg h, if_neg h2, hbt, List.cons_append, unquoteFrom_high _ _ hb, hd]
      simp only [List.length_cons, Nat.add_sub_cancel]
      rw [unquoteFrom_skip, appendRune_toNat, hbt]

theorem prepend_some (x s tail : List UInt8) :
    prepend x (some (s, tail)) = some (x ++ s, tail) := rfl

/-- The string decoder inverts the string encoder on valid UTF-8: from the
text after the opening quote it gives back the string and the text after the
closing quote. -/
theorem unquoteFrom_appendStringFrom (s : GoString) (h : ValidUTF8 s) (rest : List UInt8) :
    unquoteFrom 0 (appendStringFrom 0 s ++ go "\"" ++ rest) = some (s, rest) := by
  obtain ⟨cs, rfl⟩ := h
  induction cs with
  | nil => rfl
  | cons c cs ih =>
    rw [List.flatMap_cons, appendStringFrom_encodeRune, List.append_assoc, List.append_assoc,
      unquoteFrom_escapeChar, ← List.append_assoc, ih, prepend_some]

theorem stripLit_append (lit rest : List UInt8) : stripLit lit (lit ++ rest) = some rest := by
  induction lit with
  | nil => cases rest <;> rfl
  | cons l ls ih => simp [stripLit, ih]

theorem bytesLt_irrefl (a : List UInt8) : bytesLt a a = false := by
  induction a with
  | nil => rfl
  | cons x xs ih => simp [bytesLt, ih]

theorem bytesLt_asymm (a b : List UInt8) (h : bytesLt a b = true) : bytesLt b a = false := by
  induction a generalizing b with
  | nil => cases b <;> simp_all [bytesLt]
  | cons x xs ih =>
    cases b with
    | nil => simp [bytesLt] at h
    | cons y ys =>
      simp only [bytesLt] at h ⊢
      by_cases h1 : x.toNat < y.toNat
      · rw [if_neg (by omega), if_pos h1]
      · rw [if_neg h1] at h
        by_cases h2 : y.toNat < x.toNat
        · rw [if_pos h2] at h
          exact absurd h (by simp)
        · rw [if_neg h2] at h
          rw [if_neg h2, if_neg h1]
          exact ih ys h

theorem mapInsert_last (m : List (GoString × GoString)) (k v : GoString)
    (h : ∀ kv ∈ m, bytesLt kv.1 k = true) : mapInsert m k v = m ++ [(k, v)] := by
  induction m with
  | nil => rfl
  | cons kv rest ih =>
    obtain ⟨k2, v2⟩ := kv
    have h1 : bytesLt k2 k = true := h (k2, v2) (List.mem_cons_self _ _)
    have hne : k ≠ k2 := by
      intro e
      rw [e, bytesLt_irrefl] at h1
      exact absurd h1 (by simp)
    have h2 : bytesLt k k2 = false := bytesLt_asymm k2 k h1
    simp only [mapInsert, if_neg hne, h2, Bool.false_eq_true, if_false, List.cons_append]
    rw [ih fun kv hkv => h kv (List.mem_cons_of_mem _ hkv)]

theorem foldl_mapInsert_sorted (es pre : List (GoString × GoString))
    (h : SortedKeys (pre ++ es)) :
    es.foldl (fun acc kv => mapInsert acc kv.1 kv.2) pre = pre ++ es := by
  induction es generalizing pre with
  | nil => simp
  | cons e es ih =>
    have hs : SortedKeys (pre ++ [e] ++ es) := by simpa using h
    have hlast : ∀ kv ∈ pre, bytesLt kv.1 e.1 = true := by
      intro kv hkv
      have := List.pairwise_append.mp h
      exact this.2.2 kv hkv e (List.mem_cons_self _ _)
    rw [List.foldl_cons, mapInsert_last pre e.1 e.2 hlast, ih _ hs]
    simp

theorem sortedBindings_sorted (m : List (GoString × GoString)) (h : SortedKeys m) :
    sortedBindings m = m := by
  have := foldl_mapInsert_sorted m [] (by simpa using h)
  simpa [sortedBindings] using this

theorem dataMembers_step (fuel : Nat) (k v tail : List UInt8) (m : List (GoString × GoString))
    (hk : ValidUTF8 k) (hv : ValidUTF8 v) :
    dataMembers (fuel + 1) (quoteString k ++ go ":" ++ quoteString v ++ tail) m =
      match tail with
      | [] => none
      | s :: t5 =>
        if s.toNat = 0x2C then dataMembers fuel t5 (mapInsert m k v)
        else if s.toNat = 0x7D then some (mapInsert m k v, t5)
        else none := by
  have e : quoteString k ++ go ":" ++ quoteString v ++ tail =
      go "\"" ++ (appendStringFrom 0 k ++ go "\"" ++
        (go ":\"" ++ (appendStringFrom 0 v ++ go "\"" ++ tail))) := by
    have : go ":\"" = go ":" ++ go "\"" := by decide
    simp only [quoteString, this, List.append_assoc]
  rw [e, dataMembers]
  simp only [stripLit_append, unquoteFrom_appendStringFrom k hk, unquoteFrom_appendStringFrom v hv]

theorem encodeMembers_two (kv kv2 : GoString × GoString) (es : List (GoString × GoString)) :
    encodeMembers (kv :: kv2 :: es) =
      quoteString kv.1 ++ go ":" ++ quoteString kv.2 ++ go "," ++ encodeMembers (kv2 :: es) := rfl

theorem dataMembers_encodeMembers (es : List (GoString × GoString)) (hne : es ≠ [])
    (hvalid : ∀ kv ∈ es, ValidUTF8 kv.1 ∧ ValidUTF8 kv.2) (fuel : Nat) (hf : es.length ≤ fuel)
    (rest : List UInt8) (m : List (GoString × GoString)) :
    dataMembers fuel (encodeMembers es ++ go "\x7d" ++ rest) m =
      some (es.foldl (fun acc kv => mapInsert acc kv.1 kv.2) m, rest) := by
  induction es generalizing fuel m with
  | nil => exact absurd rfl hne
  | cons kv es ih =>
    obtain ⟨f, rfl⟩ : ∃ f, fuel = f + 1 := ⟨fuel - 1, by simp at hf; omega⟩
    have hkv := hvalid kv (List.mem_cons_self _ _)
    cases es with
    | nil =>
      have e : encodeMembers [kv] ++ go "\x7d" ++ rest =
          quoteString kv.1 ++ go ":" ++ quoteString kv.2 ++ (0x7D :: rest) := by
        simp only [encodeMembers, List.append_assoc]
        rfl
      rw [e, dataMembers_step f kv.1 kv.2 _ m hkv.1 hkv.2]
      rfl
    | cons kv2 es2 =>
      have e : encodeMembers (kv :: kv2 :: es2) ++ go "\x7d" ++ rest =
          quoteString kv.1 ++ go ":" ++ quoteString kv.2 ++
            (0x2C :: (encodeMembers (kv2 :: es2) ++ go "\x7d" ++ rest)) := by
        simp only [encodeMembers_two, List.append_assoc]
        rfl
      rw [e, dataMembers_step f kv.1 kv.2 _ m hkv.1 hkv.2]
      have := ih (by simp) (fun x hx => hvalid x (List.mem_cons_of_mem _ hx)) f
        (by simp at hf ⊢; omega) (mapInsert m kv.1 kv.2)
      simpa using this

theorem encodeMembers_length (es : List (GoString × GoString)) :
    es.length ≤ (encodeMembers es).length := by
  induction es with
  | nil => simp
  | cons kv es ih =>
    cases es with
    | nil => simp [encodeMembers, quoteString, go, encodeRune]
    | cons kv2 es2 =>
      rw [encodeMembers_two]
      simp only [List.length_append, List.length_cons] at ih ⊢
      have : 0 < (quoteString kv.1).length := by simp [quoteString, go, encodeRune]
      omega

theorem encodeMembers_head (kv : GoString × GoString) (es : List (GoString × GoString)) :
    ∃ t, encodeMembers (kv :: es) = 0x22 :: t := by
  cases es with
  | nil => exact ⟨_, by simp only [encodeMembers, quoteString, List.append_assoc]; rfl⟩
  | cons kv2 es2 =>
    exact ⟨_, by rw [encodeMembers_two]; simp only [quoteString, List.append_assoc]; rfl⟩

/-- Decoding the encoding of a map into a nil map gives the map back. -/
theorem decodeData_encodeData (d : Option (List (GoString × GoString)))
    (hd : ∀ m, d = some m → SortedKeys m ∧ ∀ kv ∈ m, ValidUTF8 kv.1 ∧ ValidUTF8 kv.2)
    (rest : List UInt8) :
    decodeData (encodeData d ++ rest) none = some (d, rest) := by
  cases d with
  | none =>
    simp only [encodeData, decodeData, stripLit_append]
  | some m =>
    obtain ⟨hs, hv⟩ := hd m rfl
    rw [encodeData, sortedBindings_sorted m hs]
    cases m with
    | nil =>
      have e : go "\x7b" ++ encodeMembers [] ++ go "\x7d" ++ rest = go "\x7b\x7d" ++ rest := rfl
      rw [e, decodeData]
      have e1 : stripLit (go "null") (go "\x7b\x7d" ++ rest) = none := rfl
      rw [e1]
      simp only [stripLit_append]
      rfl
    | cons kv es =>
      obtain ⟨t, ht⟩ := encodeMembers_head kv es
      have e1 : stripLit (go "null") (go "\x7b" ++ encodeMembers (kv :: es) ++ go "\x7d" ++ rest) =
          none := rfl
      have e2 : stripLit (go "\x7b\x7d")
          (go "\x7b" ++ encodeMembers (kv :: es) ++ go "\x7d" ++ rest) = none := by
        rw [ht]
        rfl
      have e3 : go "\x7b" ++ encodeMembers (kv :: es) ++ go "\x7d" ++ rest =
          go "\x7b" ++ (encodeMembers (kv :: es) ++ go "\x7d" ++ rest) := by
        simp only [List.append_assoc]
      rw [decodeData, e1, e2]
      simp only []
      rw [e3, stripLit_append]
      simp only [Option.getD_none]
      rw [dataMembers_encodeMembers (kv :: es) (by simp) hv _ _ rest []]
      · simp only [Option.map_some']
        rw [foldl_mapInsert_sorted (kv :: es) [] (by simpa using hs)]
        rfl
      · have := encodeMembers_length (kv :: es)
        simp only [List.length_append]
        omega

theorem decodeMembers_step (fuel : Nat) (key text : List UInt8) (v : authResponse)
    (hkey : ValidUTF8 key) :
    decodeMembers (fuel + 1) (quoteString key ++ go ":" ++ text) v =
      match decodeField key text v with
      | none => none
      | some (v2, t4) =>
        match t4 with
        | [] => none
        | s :: t5 =>
          if s.toNat = 0x2C then decodeMembers fuel t5 v2
          else if s.toNat = 0x7D then some (v2, t5)
          else none := by
  have e : quoteString key ++ go ":" ++ text =
      go "\"" ++ (appendStringFrom 0 key ++ go "\"" ++ (go ":" ++ text)) := by
    simp only [quoteString, List.append_assoc]
  rw [e, decodeMembers]
  simp only [stripLit_append, unquoteFrom_appendStringFrom key hkey]

theorem decodeField_txok (b : Bool) (tail : List UInt8) (v : authResponse) :
    decodeField (go "txok") ((if b then go "true" else go "false") ++ tail) v =
      some ({ v with ResponseOK := b }, tail) := by
  cases b with
  | true => simp only [decodeField, if_true, stripLit_append]
  | false =>
    have e : stripLit (go "true") (go "false" ++ tail) = none := rfl
    simp only [decodeField, if_true, Bool.false_eq_true, if_false, e, stripLit_append]

theorem decodeField_message (msg tail : List UInt8) (v : authResponse) (h : ValidUTF8 msg) :
    decodeField (go "message") (quoteString msg ++ tail) v =
      some ({ v with Message := msg }, tail) := by
  have hne : go "message" ≠ go "txok" := by decide
  have e : quoteString msg ++ tail = go "\"" ++ (appendStringFrom 0 msg ++ go "\"" ++ tail) := by
    simp only [quoteString, List.append_assoc]
  rw [e]
  simp only [decodeField, if_neg hne, if_true, stripLit_append,
    unquoteFrom_appendStringFrom msg h, Option.map_some']

theorem decodeField_data (d : Option (List (GoString × GoString))) (tail : List UInt8)
    (v : authResponse) (hv : v.Data = none)
    (hd : ∀ m, d = some m → SortedKeys m ∧ ∀ kv ∈ m, ValidUTF8 kv.1 ∧ ValidUTF8 kv.2) :
    decodeField (go "data") (encodeData d ++ tail) v = some ({ v with Data := d }, tail) := by
  have hne1 : go "data" ≠ go "txok" := by decide
  have hne2 : go "data" ≠ go "message" := by decide
  simp only [decodeField, if_neg hne1, if_neg hne2, if_true, hv, decodeData_encodeData d hd,
    Option.map_some']

theorem validUTF8_go (s : String) : ValidUTF8 (go s) := ⟨s.toList, rfl⟩

/-- Claim C10, amended: for every `authResponse` whose message and whose map
keys and values are valid UTF-8 (every boolean, every map, the nil and the
empty map included), the encoding carries the three fields under the keys
"txok", "message" and "data", and decoding it with `transformJSONToObject`
into a fresh `authResponse` gives the value back. -/
theorem roundtrip_valid_utf8 (r : authResponse) (h : WellFormedResponse r) :
    transformObjectToJSON r =
        go "\x7b\"txok\":" ++ (if r.ResponseOK then go "true" else go "false") ++
          go ",\"message\":" ++ quoteString r.Message ++
          go ",\"data\":" ++ encodeData r.Data ++ go "\x7d" ∧
      transformJSONToObject (transformObjectToJSON r) authResponse.zero = some r := by
  refine ⟨rfl, ?_⟩
  obtain ⟨hmsg, hdata⟩ := h
  obtain ⟨ok, msg, d⟩ := r
  have e : transformObjectToJSON ⟨ok, msg, d⟩ =
      go "\x7b" ++ (quoteString (go "txok") ++ go ":" ++ ((if ok then go "true" else go "false") ++
        (0x2C :: (quoteString (go "message") ++ go ":" ++ (quoteString msg ++
        (0x2C :: (quoteString (go "data") ++ go ":" ++ (encodeData d ++ [0x7D])))))))) := by
    have e1 : go "\x7b\"txok\":" = go "\x7b" ++ (quoteString (go "txok") ++ go ":") := by decide
    have e2 : go ",\"message\":" = 0x2C :: (quoteString (go "message") ++ go ":") := by decide
    have e3 : go ",\"data\":" = 0x2C :: (quoteString (go "data") ++ go ":") := by decide
    have e4 : go "\x7d" = [0x7D] := by decide
    simp only [transformObjectToJSON, e1, e2, e3, e4, List.append_assoc, List.cons_append]
  rw [e, transformJSONToObject]
  have s0 : ∀ X, stripLit (go "\x7b\x7d") (go "\x7b" ++ (quoteString (go "txok") ++ go ":" ++ X)) =
      none := fun X => rfl
  rw [s0]
  simp only [stripLit_append]
  obtain ⟨f, hf⟩ : ∃ f, (quoteString (go "txok") ++ go ":" ++
      ((if ok then go "true" else go "false") ++
        (0x2C :: (quoteString (go "message") ++ go ":" ++ (quoteString msg ++
        (0x2C :: (quoteString (go "data") ++ go ":" ++ (encodeData d ++ [0x7D])))))))).length =
      f + 3 := by
    apply Nat.exists_eq_add_of_le'
    have : (quoteString (go "txok")).length = 6 := by decide
    rw [List.length_append, List.length_append, this]
    omega
  rw [hf, decodeMembers_step _ _ _ _ (validUTF8_go "txok"), decodeField_txok]
  simp only [if_true]
  rw [decodeMembers_step _ _ _ _ (validUTF8_go "message"), decodeField_message _ _ _ hmsg]
  simp only [if_true]
  rw [decodeMembers_step _ _ _ _ (validUTF8_go "data"),
    decodeField_data d _ _ rfl (fun m hm => hdata m hm)]
  rfl

/-- Claim C10, as stated, fails: a message holding the byte 0xFF, which is not
valid UTF-8, is encoded as the escape of U+FFFD and decodes to the three bytes
of U+FFFD, not to the original message. -/
theorem invalid_utf8_not_restored :
    transformObjectToJSON ⟨false, [0xFF], none⟩ =
        go "\x7b\"txok\":false,\"message\":\"\\ufffd\",\"data\":null\x7d" ∧
      transformJSONToObject (transformObjectToJSON ⟨false, [0xFF], none⟩) authResponse.zero =
        some ⟨false, [0xEF, 0xBF, 0xBD], none⟩ ∧
      transformJSONToObject (transformObjectToJSON ⟨false, [0xFF], none⟩) authResponse.zero ≠
        some ⟨false, [0xFF], none⟩ := by
  decide

/-- The round trip on a positive verdict with a nil map, on a negative verdict
with an empty map, and on a response with a two-entry map and text that needs
escaping. -/
theorem roundtrip_valid_utf8_witness :
    (transformObjectToJSON ⟨true, go "OK", none⟩ =
        go "\x7b\"txok\":true,\"message\":\"OK\",\"data\":null\x7d" ∧
      transformJSONToObject (transformObjectToJSON ⟨true, go "OK", none⟩) authResponse.zero =
        some ⟨true, go "OK", none⟩) ∧
    transformJSONToObject
        (transformObjectToJSON ⟨false, go "9999 was not found in the directory", some []⟩)
        authResponse.zero =
      some ⟨false, go "9999 was not found in the directory", some []⟩ ∧
    transformJSONToObject
        (transformObjectToJSON ⟨false, go "caf\u00e9 <\"R&D\">\n",
          some [(go "dept", go "R&D"), (go "name", go "Jos\u00e9")]⟩)
        authResponse.zero =
      some ⟨false, go "caf\u00e9 <\"R&D\">\n",
        some [(go "dept", go "R&D"), (go "name", go "Jos\u00e9")]⟩ :=
  ⟨roundtrip_valid_utf8 ⟨true, go "OK", none⟩
      ⟨validUTF8_go "OK", fun _ h => nomatch h⟩,
    (roundtrip_valid_utf8 ⟨false, go "9999 was not found in the directory", some []⟩
      ⟨validUTF8_go _, fun m h => by
        cases h
        exact ⟨List.Pairwise.nil, fun _ hkv => nomatch hkv⟩⟩).2,
    (roundtrip_valid_utf8 ⟨false, go "caf\u00e9 <\"R&D\">\n",
        some [(go "dept", go "R&D"), (go "name", go "Jos\u00e9")]⟩
      ⟨validUTF8_go _, fun m h => by
        cases h
        refine ⟨by simp [SortedKeys]; decide, ?_⟩
        intro kv hkv
        simp only [List.mem_cons, List.mem_singleton, List.not_mem_nil, or_false] at hkv
        rcases hkv with rfl | rfl
        · exact ⟨validUTF8_go _, validUTF8_go _⟩
        · exact ⟨validUTF8_go _, validUTF8_go _⟩⟩).2⟩

end ADac
